import Mathlib

/-!
interact_HyperOS: access lists and the state journal.

A shallow embedding of `accesslist/rw_accesslist.go`, `cacheState/journal.go` and
`cacheState/state.go`.

Modelling conventions.
* A Go `byte` is a `Fin 256`; a fixed array `[n]byte` is a list of bytes of length `n`.
* A Go map that the code ranges over (`ALTuple`, the marshal maps) is a duplicate-free
  list of its keys (entries); the list order is the order in which `range` visits the
  map. Every statement is quantified over all such lists, hence over all iteration orders.
* A Go map that is only indexed (`journal.dirties`) is a function to `Option`.
* Methods that mutate a map or a pointer receiver return the updated value. Distinct
  values never alias, and maps are initialised (made by `make`), as `NewRWAccessLists`
  and `newJournal` produce them.
* A run-time panic is the result `none`; the loop of `journal.revert` gives `error` with
  the dirties map that the panic leaves.
-/

namespace common

/-! ## Bytes, addresses, hashes -/

/-- The Go type `byte`. -/
abbrev Byte := Fin 256

/-- The Go array type `[n]byte`. -/
abbrev Bytes (n : Nat) := { l : List Byte // l.length = n }

/-- The go-ethereum type `common.Address` (`[20]byte`). -/
abbrev Address := Bytes 20

/-- The go-ethereum type `common.Hash` (`[32]byte`). -/
abbrev Hash := Bytes 32

/-- The type `Byte52` (`[52]byte`). -/
abbrev Byte52 := Bytes 52

/-- The zero value of `[n]byte`, as `var key Byte52` declares it. -/
def zeroBytes (n : Nat) : Bytes n := ⟨List.replicate n 0, List.length_replicate n 0⟩

/-- The Go builtin `copy(dst[off:], src)` on an array `dst`: it overwrites
`min(len(dst)-off, len(src))` bytes of `dst`, starting at index `off`. -/
def copyInto {n : Nat} (dst : Bytes n) (off : Nat) (src : List Byte) (hoff : off ≤ n) : Bytes n :=
  ⟨dst.val.take off ++ src.take (min (n - off) src.length)
      ++ dst.val.drop (off + min (n - off) src.length), by
    have hd := dst.property
    simp only [List.length_append, List.length_take, List.length_drop, hd]
    omega⟩

/-- The go-ethereum function `common.BytesToAddress`: `SetBytes` crops `b` from the left
when it is longer than 20 bytes and copies it right-aligned into a zero address. -/
def BytesToAddress (b : List Byte) : Address :=
  let b := if b.length > 20 then b.drop (b.length - 20) else b
  copyInto (zeroBytes 20) (20 - b.length) b (Nat.sub_le 20 b.length)

/-- The go-ethereum function `common.BytesToHash`: `SetBytes` crops `b` from the left
when it is longer than 32 bytes and copies it right-aligned into a zero hash. -/
def BytesToHash (b : List Byte) : Hash :=
  let b := if b.length > 32 then b.drop (b.length - 32) else b
  copyInto (zeroBytes 32) (32 - b.length) b (Nat.sub_le 32 b.length)

/-! ## Strings and hexadecimal text -/

/-- A Go `string`: its sequence of bytes. -/
abbrev GoString := List Byte

/-- The bytes of an ASCII string literal. -/
def ascii (s : String) : GoString := s.toList.map (fun c => Fin.ofNat c.toNat)

/-- The table `hextable` of Go's `encoding/hex`. -/
def hextable : GoString := ascii "0123456789abcdef"

/-- The Go function `hex.EncodeToString`: two digits per byte, `hextable[v>>4]` then
`hextable[v&0x0f]`. -/
def hexEncode : List Byte → GoString
  | [] => []
  | v :: rest => hextable.getD (v.val / 16) 0 :: hextable.getD (v.val % 16) 0 :: hexEncode rest

/-- The method `common.Hash.Hex`: `hexutil.Encode`, the text `0x` followed by the
hexadecimal digits of the 32 bytes. -/
def Hash.Hex (h : Hash) : GoString := ascii "0x" ++ hexEncode h.val

/-- The value of one hexadecimal digit in Go's `encoding/hex`, `none` for any other byte. -/
def fromHexChar (c : Byte) : Option Nat :=
  if 48 ≤ c.val ∧ c.val ≤ 57 then some (c.val - 48)
  else if 97 ≤ c.val ∧ c.val ≤ 102 then some (c.val - 97 + 10)
  else if 65 ≤ c.val ∧ c.val ≤ 70 then some (c.val - 65 + 10)
  else none

/-- The go-ethereum function `common.Hex2Bytes`: `hex.DecodeString` with the error dropped,
which leaves the bytes decoded before the first invalid digit or the odd last digit. -/
def Hex2Bytes : GoString → List Byte
  | p :: q :: rest =>
    match fromHexChar p, fromHexChar q with
    | some a, some b => Fin.ofNat (a * 16 + b) :: Hex2Bytes rest
    | _, _ => []
  | _ => []

/-- The go-ethereum helper `has0xPrefix`. -/
def has0xPrefix (str : GoString) : Bool :=
  match str with
  | c0 :: c1 :: _ => c0.val == 48 && (c1.val == 120 || c1.val == 88)
  | _ => false

/-- The go-ethereum function `common.FromHex`. -/
def FromHex (s : GoString) : List Byte :=
  let s := if has0xPrefix s then s.drop 2 else s
  let s := if s.length % 2 == 1 then ascii "0" ++ s else s
  Hex2Bytes s

/-- The go-ethereum function `common.HexToHash`. -/
def HexToHash (s : GoString) : Hash := BytesToHash (FromHex s)

end common

namespace accesslist
open common

/-! ## The reserved discriminators

The package variables `CODE`, `CODEHASH`, `BALANCE`, `NONCE`, `ALIVE` are the SHA-256
digests of the field names; the digests are written out. -/

/-- The variable `CODE`, `sha256.Sum256([]byte("code"))`. -/
def CODE : Hash :=
  ⟨[86, 148, 208, 138, 46, 83, 255, 202, 224, 195, 16, 62, 90, 214, 246, 7, 106, 189, 150, 14,
    177, 248, 165, 101, 119, 4, 11, 193, 2, 143, 112, 43], by decide⟩

/-- The variable `CODEHASH`, `sha256.Sum256([]byte("codeHash"))`. -/
def CODEHASH : Hash :=
  ⟨[217, 61, 90, 169, 179, 68, 41, 86, 247, 17, 102, 74, 232, 251, 184, 197, 18, 153, 199, 127,
    189, 209, 188, 163, 104, 213, 251, 226, 29, 237, 234, 72], by decide⟩

/-- The variable `BALANCE`, `sha256.Sum256([]byte("balance"))`. -/
def BALANCE : Hash :=
  ⟨[87, 81, 224, 72, 235, 111, 238, 62, 185, 187, 78, 167, 15, 16, 127, 25, 195, 88, 99, 118,
    107, 238, 81, 0, 4, 78, 82, 171, 96, 217, 237, 207], by decide⟩

/-- The variable `NONCE`, `sha256.Sum256([]byte("nonce"))`. -/
def NONCE : Hash :=
  ⟨[120, 55, 123, 82, 87, 87, 180, 148, 66, 127, 137, 1, 79, 151, 215, 153, 40, 243, 147, 141,
    20, 235, 81, 226, 15, 181, 222, 201, 131, 78, 179, 4], by decide⟩

/-- The variable `ALIVE`, `sha256.Sum256([]byte("alive"))`. -/
def ALIVE : Hash :=
  ⟨[19, 95, 199, 160, 157, 162, 95, 3, 228, 79, 122, 44, 112, 14, 253, 74, 157, 10, 152, 154,
    244, 212, 112, 78, 171, 254, 154, 218, 113, 178, 101, 144], by decide⟩

/-! ## Location keys and access sets -/

/-- The function `Combine`: `copy(key[:], addr[:])` then `copy(key[20:], hash[:])` on a
zero `Byte52`. -/
def Combine (addr : Address) (hash : Hash) : Byte52 :=
  let key : Byte52 := zeroBytes 52
  let key := copyInto key 0 addr.val (Nat.zero_le 52)
  let key := copyInto key 20 hash.val (by decide)
  key

/-- The type `ALTuple` (`map[Byte52]struct{}`): the keys of the map, without duplicates,
in the order `range` visits them. -/
structure ALTuple where
  keys : List Byte52
  nodup : keys.Nodup

/-- The empty map `make(ALTuple)`. -/
def ALTuple.empty : ALTuple := ⟨[], List.nodup_nil⟩

/-- The method `ALTuple.Contains`. -/
def ALTuple.Contains (tuple : ALTuple) (key : Byte52) : Bool :=
  decide (key ∈ tuple.keys)

/-- The method `ALTuple.Add`: returns at once when the key is present, stores it otherwise. -/
def ALTuple.Add (tuple : ALTuple) (addr : Address) (hash : Hash) : ALTuple :=
  let key := Combine addr hash
  if ok : key ∈ tuple.keys then
    tuple
  else
    ⟨tuple.keys ++ [key], List.Nodup.append tuple.nodup (List.nodup_singleton key)
      (by
        intro x hx hx1
        rw [List.mem_singleton] at hx1
        exact ok (hx1 ▸ hx))⟩

/-- The Go builtin `len` on an `ALTuple`. -/
def ALTuple.len (tuple : ALTuple) : Nat := tuple.keys.length

/-! ## Read/write access lists -/

/-- The struct `RW_AccessLists`. -/
structure RW_AccessLists where
  ReadAL : ALTuple
  WriteAL : ALTuple

/-- The constructor `NewRWAccessLists`. -/
def NewRWAccessLists : RW_AccessLists := ⟨ALTuple.empty, ALTuple.empty⟩

namespace RW_AccessLists

/-- The method `AddReadAL`. -/
def AddReadAL (RWAL : RW_AccessLists) (addr : Address) (hash : Hash) : RW_AccessLists :=
  ⟨RWAL.ReadAL.Add addr hash, RWAL.WriteAL⟩

/-- The method `AddWriteAL`. -/
def AddWriteAL (RWAL : RW_AccessLists) (addr : Address) (hash : Hash) : RW_AccessLists :=
  ⟨RWAL.ReadAL, RWAL.WriteAL.Add addr hash⟩

/-- The first loop of `HasConflict`, over the keys of `RWAL.ReadAL`: `true` when the
loop executes `return true`. -/
def HasConflict.readLoop (other : RW_AccessLists) : List Byte52 → Bool
  | [] => false
  | key :: rest =>
    if other.WriteAL.Contains key then true
    else HasConflict.readLoop other rest

/-- The second loop of `HasConflict`, over the keys of `RWAL.WriteAL`: `true` when the
loop executes one of its two `return true`. -/
def HasConflict.writeLoop (other : RW_AccessLists) : List Byte52 → Bool
  | [] => false
  | key :: rest =>
    if other.WriteAL.Contains key then true
    else if other.ReadAL.Contains key then true
    else HasConflict.writeLoop other rest

/-- The method `HasConflict`. -/
def HasConflict (RWAL other : RW_AccessLists) : Bool :=
  if HasConflict.readLoop other RWAL.ReadAL.keys then true
  else if HasConflict.writeLoop other RWAL.WriteAL.keys then true
  else false

/-- One loop of `Merge`: for each key of the ranged map, `Add` the address `key[:20]` and
the hash `key[20:]` to the receiver's map. -/
def Merge.loop : List Byte52 → ALTuple → ALTuple
  | [], tuple => tuple
  | key :: rest, tuple =>
    Merge.loop rest (tuple.Add (BytesToAddress (key.val.take 20)) (BytesToHash (key.val.drop 20)))

/-- The method `Merge`. -/
def Merge (RWAL other : RW_AccessLists) : RW_AccessLists :=
  let readAL := Merge.loop other.ReadAL.keys RWAL.ReadAL
  let writeAL := Merge.loop other.WriteAL.keys RWAL.WriteAL
  ⟨readAL, writeAL⟩

/-- A containment loop of `Equal`: `false` when the loop executes `return false`. -/
def Equal.loop (otherAL : ALTuple) : List Byte52 → Bool
  | [] => true
  | key :: rest =>
    if !otherAL.Contains key then false
    else Equal.loop otherAL rest

/-- The method `Equal`. -/
def Equal (RWAL other : RW_AccessLists) : Bool :=
  if RWAL.ReadAL.len ≠ other.ReadAL.len then false
  else if RWAL.WriteAL.len ≠ other.WriteAL.len then false
  else if !Equal.loop other.ReadAL RWAL.ReadAL.keys then false
  else if !Equal.loop other.WriteAL RWAL.WriteAL.keys then false
  else true

end RW_AccessLists

/-! ## Serialization -/

/-- The function `decodeHash`: the `switch` tries `CODE`, `BALANCE`, `ALIVE`, `CODEHASH`,
`NONCE` in that order and falls back to `hash.Hex()`. -/
def decodeHash (hash : Hash) : GoString :=
  if hash = CODE then ascii "code"
  else if hash = BALANCE then ascii "balance"
  else if hash = ALIVE then ascii "alive"
  else if hash = CODEHASH then ascii "codeHash"
  else if hash = NONCE then ascii "nonce"
  else hash.Hex

/-- The function `encodeHash`: the `switch` tries the five labels in the same order and
falls back to `common.HexToHash(str)`. -/
def encodeHash (str : GoString) : Hash :=
  if str = ascii "code" then CODE
  else if str = ascii "balance" then BALANCE
  else if str = ascii "alive" then ALIVE
  else if str = ascii "codeHash" then CODEHASH
  else if str = ascii "nonce" then NONCE
  else HexToHash str

/-- The type `map[common.Address][]string` of the marshal form: its entries in the order
`range` visits them. The code only builds it with `marshalAssign`, which keeps the
addresses distinct. -/
abbrev MarshalMap := List (Address × List GoString)

/-- The Go index expression `m[addr]` on a marshal map: the stored list, or `nil`. -/
def marshalIndex : MarshalMap → Address → List GoString
  | [], _ => []
  | (a, hashList) :: rest, addr => if a = addr then hashList else marshalIndex rest addr

/-- The Go assignment `m[addr] = v` on a marshal map: replaces the entry of `addr`, or
adds one. -/
def marshalAssign : MarshalMap → Address → List GoString → MarshalMap
  | [], addr, v => [(addr, v)]
  | (a, hashList) :: rest, addr, v =>
    if a = addr then (a, v) :: rest else (a, hashList) :: marshalAssign rest addr v

/-- The struct `RW_AccessLists_Marshal`. -/
structure RW_AccessLists_Marshal where
  ReadSet : MarshalMap
  WriteSet : MarshalMap

/-- The constructor `NewRWAccessListsMarshal`. -/
def NewRWAccessListsMarshal : RW_AccessLists_Marshal := ⟨[], []⟩

/-- One loop of `ToMarshal`: for each key of the ranged map, append the label of
`key[20:]` to the list stored for the address `key[:20]`. -/
def RW_AccessLists.ToMarshal.loop : List Byte52 → MarshalMap → MarshalMap
  | [], set => set
  | key :: rest, set =>
    let addr := BytesToAddress (key.val.take 20)
    let hash := BytesToHash (key.val.drop 20)
    RW_AccessLists.ToMarshal.loop rest
      (marshalAssign set addr (marshalIndex set addr ++ [decodeHash hash]))

/-- The method `RW_AccessLists.ToMarshal`. -/
def RW_AccessLists.ToMarshal (RWAL : RW_AccessLists) : RW_AccessLists_Marshal :=
  let readSet := RW_AccessLists.ToMarshal.loop RWAL.ReadAL.keys []
  let writeSet := RW_AccessLists.ToMarshal.loop RWAL.WriteAL.keys []
  ⟨readSet, writeSet⟩

namespace RW_AccessLists_Marshal

/-- The inner loop of `ToRWAL`, over the labels stored for one address. -/
def ToRWAL.inner (addr : Address) : List GoString → ALTuple → ALTuple
  | [], tuple => tuple
  | hash :: rest, tuple => ToRWAL.inner addr rest (tuple.Add addr (encodeHash hash))

/-- The outer loop of `ToRWAL`, over the entries of one marshal map. -/
def ToRWAL.outer : MarshalMap → ALTuple → ALTuple
  | [], tuple => tuple
  | (addr, hashList) :: rest, tuple => ToRWAL.outer rest (ToRWAL.inner addr hashList tuple)

/-- The method `RW_AccessLists_Marshal.ToRWAL`. -/
def ToRWAL (RWALM : RW_AccessLists_Marshal) : RW_AccessLists :=
  let res := NewRWAccessLists
  ⟨ToRWAL.outer RWALM.ReadSet res.ReadAL, ToRWAL.outer RWALM.WriteSet res.WriteAL⟩

end RW_AccessLists_Marshal

end accesslist

namespace cachestate

open common

/-! ## The journal

The journal is embedded for an arbitrary state type `σ`; the source instantiates it with
`*CacheState`. -/

/-- The interface `journalEntry`: the method `revert`, which updates the state it is given
or panics (`none`), and the method `dirtied`, the address the entry modified or `nil`. Every
implementation in `journal.go` returns a stored field from `dirtied`; the address it points to
is taken not to change while the entry is in the journal. -/
structure journalEntry (σ : Type) where
  revert : σ → Option σ
  dirtied : Option Address

/-- The Go type `int`, 64 bits wide: the integers from `-2^63` to `2^63 - 1`. -/
abbrev GoInt := { x : Int // -9223372036854775808 ≤ x ∧ x ≤ 9223372036854775807 }

/-- The result of Go's arithmetic on `int`, which wraps around: the integer of the `int`
range that is congruent to `x` modulo `2^64`. -/
def GoInt.wrap (x : Int) : GoInt :=
  ⟨(x + 9223372036854775808) % 18446744073709551616 - 9223372036854775808, by omega⟩

/-- The type `map[common.Address]int` of `journal.dirties`. -/
abbrev DirtyMap := Address → Option GoInt

/-- The Go index expression `dirties[addr]`: the stored count, or `0`. -/
def DirtyMap.index (dirties : DirtyMap) (addr : Address) : GoInt :=
  (dirties addr).getD (GoInt.wrap 0)

/-- The Go assignment `dirties[addr] = v`. -/
def DirtyMap.assign (dirties : DirtyMap) (addr : Address) (v : GoInt) : DirtyMap :=
  fun a => if a = addr then some v else dirties a

/-- The Go builtin `delete(dirties, addr)`. -/
def DirtyMap.delete (dirties : DirtyMap) (addr : Address) : DirtyMap :=
  fun a => if a = addr then none else dirties a

/-- The struct `journal`. -/
structure journal (σ : Type) where
  entries : List (journalEntry σ)
  dirties : DirtyMap

/-- The constructor `newJournal`. -/
def newJournal {σ : Type} : journal σ := ⟨[], fun _ => none⟩

namespace journal

variable {σ : Type}

/-- The method `journal.append`; `j.dirties[*addr]++` wraps around like all `int`
arithmetic. -/
def append (j : journal σ) (entry : journalEntry σ) : journal σ :=
  let entries := j.entries ++ [entry]
  match entry.dirtied with
  | some addr =>
    ⟨entries, j.dirties.assign addr (GoInt.wrap ((j.dirties.index addr).val + 1))⟩
  | none => ⟨entries, j.dirties⟩

/-- The loop of `journal.revert`. The third argument is `i + 1` for the loop variable `i`,
which runs from `len(j.entries) - 1` down while `i >= snapshot`. The result is `ok` with
the dirties map and the state when the loop completes. It is `error` when the loop panics,
in the undo of an entry or by indexing `j.entries[i]` out of range, and then holds the
dirties map as the updates made before the panic leave it. -/
def revert.loop (entries : List (journalEntry σ)) (snapshot : Int) :
    Nat → DirtyMap → σ → Except DirtyMap (DirtyMap × σ)
  | 0, dirties, statedb =>
    if (-1 : Int) ≥ snapshot then Except.error dirties else Except.ok (dirties, statedb)
  | i + 1, dirties, statedb =>
    if (i : Int) ≥ snapshot then
      match entries[i]? with
      | none => Except.error dirties
      | some entry =>
        match entry.revert statedb with
        | none => Except.error dirties
        | some statedb =>
          match entry.dirtied with
          | some addr =>
            let dirties := dirties.assign addr (GoInt.wrap ((dirties.index addr).val - 1))
            if (dirties.index addr).val = 0 then
              revert.loop entries snapshot i (dirties.delete addr) statedb
            else
              revert.loop entries snapshot i dirties statedb
          | none => revert.loop entries snapshot i dirties statedb
    else Except.ok (dirties, statedb)

/-- The method `journal.revert`, when it returns: the loop, then
`j.entries = j.entries[:snapshot]`. The result is `none` when the call panics. The slice
expression panics for a negative `snapshot`; a `snapshot` above the length is not modelled
(Go allows it up to the capacity of the slice) and is `none` as well. -/
def revert (j : journal σ) (statedb : σ) (snapshot : Int) : Option (journal σ × σ) :=
  match revert.loop j.entries snapshot j.entries.length j.dirties statedb with
  | Except.error _ => none
  | Except.ok (dirties, statedb) =>
    if 0 ≤ snapshot ∧ snapshot ≤ (j.entries.length : Int) then
      some (⟨j.entries.take snapshot.toNat, dirties⟩, statedb)
    else none

/-- The journal that a call of `journal.revert` leaves behind when it panics, as a caller
that recovers from the panic finds it: the method updates `j.dirties` in place and assigns
`j.entries` only after the loop, so the entries are all still there and the dirties map is
as the loop left it. The result is `none` when the call returns. As in `revert`, a
`snapshot` above the length counts as a panic of the slice expression. -/
def revertPanic (j : journal σ) (statedb : σ) (snapshot : Int) : Option (journal σ) :=
  match revert.loop j.entries snapshot j.entries.length j.dirties statedb with
  | Except.error dirties => some ⟨j.entries, dirties⟩
  | Except.ok (dirties, _) =>
    if 0 ≤ snapshot ∧ snapshot ≤ (j.entries.length : Int) then none
    else some ⟨j.entries, dirties⟩

/-- The method `journal.dirty`; the increment wraps around like all `int` arithmetic. -/
def dirty (j : journal σ) (addr : Address) : journal σ :=
  ⟨j.entries, j.dirties.assign addr (GoInt.wrap ((j.dirties.index addr).val + 1))⟩

/-- The method `journal.length`. -/
def length (j : journal σ) : Int := (j.entries.length : Int)

end journal

/-- The journals built from `newJournal()` by calls of `append`, `dirty` and `revert` in
which every `revert` has `0 <= snapshot <= length()` and returns, and no `append` or
`dirty` increments a count that is already `2^63 - 1`, the largest `int`. -/
inductive ReachableNormally {σ : Type} : journal σ → Prop
  | init : ReachableNormally newJournal
  | append (j : journal σ) (entry : journalEntry σ) : ReachableNormally j →
      (∀ addr, entry.dirtied = some addr →
        (j.dirties.index addr).val < 9223372036854775807) →
      ReachableNormally (j.append entry)
  | dirty (j : journal σ) (addr : Address) : ReachableNormally j →
      (j.dirties.index addr).val < 9223372036854775807 → ReachableNormally (j.dirty addr)
  | revert (j : journal σ) (statedb : σ) (snapshot : Int) (j2 : journal σ) (statedb2 : σ) :
      ReachableNormally j → 0 ≤ snapshot → snapshot ≤ j.length →
      j.revert statedb snapshot = some (j2, statedb2) → ReachableNormally j2

end cachestate

namespace cachestate

open common

/-! ## Account objects

The file that declares `accountObject` is not among the source files; `state.go` and
`journal.go` only use it. -/

/-- Modelled from the spec: the struct `accountObject`, which the source files use but do
not declare. The spec gives the Account Object as `{ address, balance, nonce, code,
codeHash, alive, storage }`; `state.go` names the fields `Address`, `ByteCode` and
`IsAlive`, and passes balances as `*big.Int` and nonces as `uint64`. -/
structure accountObject where
  Address : common.Address
  Balance : Int
  Nonce : Nat
  ByteCode : List Byte
  CodeHash : Hash
  IsAlive : Bool
  Storage : Hash → Option Hash

/-- Modelled from the spec: the constructor call `newAccountObject(addr, accountData{})`,
not among the source files. The spec creates the object "default zero-valued". -/
def newAccountObject (addr : Address) : accountObject :=
  ⟨addr, 0, 0, [], zeroBytes 32, false, fun _ => none⟩

namespace accountObject

/-- Modelled from the spec: the method `accountObject.GetBalance`, not among the source
files; it reads the balance. -/
def GetBalance (obj : accountObject) : Int := obj.Balance

/-- Modelled from the spec: the method `accountObject.AddBalance`, not among the source
files; it adds the amount to the balance and touches no other field. -/
def AddBalance (obj : accountObject) (amount : Int) : accountObject :=
  ⟨obj.Address, obj.Balance + amount, obj.Nonce, obj.ByteCode, obj.CodeHash, obj.IsAlive,
    obj.Storage⟩

/-- Modelled from the spec: the method `accountObject.GetNonce`, not among the source
files; it reads the nonce. -/
def GetNonce (obj : accountObject) : Nat := obj.Nonce

/-- Modelled from the spec: the method `accountObject.SetNonce`, not among the source
files; it stores the nonce and touches no other field. -/
def SetNonce (obj : accountObject) (nonce : Nat) : accountObject :=
  ⟨obj.Address, obj.Balance, nonce, obj.ByteCode, obj.CodeHash, obj.IsAlive, obj.Storage⟩

/-- Modelled from the spec: the method `accountObject.GetStorageState`, not among the
source files; it reads a slot, the zero hash when the slot was never written. -/
def GetStorageState (obj : accountObject) (key : Hash) : Hash :=
  (obj.Storage key).getD (zeroBytes 32)

/-- Modelled from the spec: the method `accountObject.SetStorageState`, not among the
source files; it stores the value in the slot and touches no other field. -/
def SetStorageState (obj : accountObject) (key value : Hash) : accountObject :=
  ⟨obj.Address, obj.Balance, obj.Nonce, obj.ByteCode, obj.CodeHash, obj.IsAlive,
    fun k => if k = key then some value else obj.Storage k⟩

/-- The assignment `stateObject.IsAlive = false` of `SelfDestruct`. -/
def clearAlive (obj : accountObject) : accountObject :=
  ⟨obj.Address, obj.Balance, obj.Nonce, obj.ByteCode, obj.CodeHash, false, obj.Storage⟩

end accountObject

/-! ## The cache state

Every method of `*CacheState` returns the state it leaves, next to its result if it has
one. The map `Accounts` is always made (`NewStateDB` makes it); the map `Logs` may be
`nil`, which is `none`. Account objects are values: the map holds one object per address
and a method that writes through the pointer it looked up updates the object the map
holds. -/

/-- The go-ethereum struct `types.Log`. -/
structure Log where
  Address : common.Address
  Topics : List Hash
  Data : List Byte
  BlockNumber : Nat
  TxHash : Hash
  TxIndex : Nat
  BlockHash : Hash
  Index : Nat
  Removed : Bool

/-- The type `map[common.Hash][]*types.Log` of `CacheState.Logs`, when it is not `nil`. -/
abbrev LogMap := Hash → Option (List Log)

/-- The struct `CacheState`. `txIndex` is a Go `int`; `logSize` is a Go `uint`, a number
below `2^64`. -/
structure CacheState where
  Accounts : Address → Option accountObject
  Logs : Option LogMap
  thash : Hash
  txIndex : Int
  logSize : Nat

/-- The constructor `NewStateDB`: it makes `Accounts` and leaves `Logs` `nil`. -/
def NewStateDB : CacheState := ⟨fun _ => none, none, zeroBytes 32, 0, 0⟩

namespace CacheState

/-- The method `getAccountObject`: the object stored for `addr`, or `nil`. -/
def getAccountObject (accSt : CacheState) (addr : Address) : Option accountObject :=
  accSt.Accounts addr

/-- The method `setAccountObject`: `accSt.Accounts[obj.Address] = obj`. -/
def setAccountObject (accSt : CacheState) (obj : accountObject) : CacheState :=
  ⟨fun a => if a = obj.Address then some obj else accSt.Accounts a, accSt.Logs, accSt.thash,
    accSt.txIndex, accSt.logSize⟩

/-- A write through the pointer that `getAccountObject(addr)` returned: the object that
the map holds for `addr` becomes `obj`. The write goes to the object and not to the map, so
a map with no entry for `addr` stays as it is. -/
def storeAt (accSt : CacheState) (addr : Address) (obj : accountObject) : CacheState :=
  ⟨fun a => if a = addr then (accSt.Accounts a).map (fun _ => obj) else accSt.Accounts a,
    accSt.Logs, accSt.thash, accSt.txIndex, accSt.logSize⟩

/-- The method `getOrsetAccountObject`. -/
def getOrsetAccountObject (accSt : CacheState) (addr : Address) : accountObject × CacheState :=
  match accSt.getAccountObject addr with
  | some get => (get, accSt)
  | none =>
    let set := newAccountObject addr
    (set, accSt.setAccountObject set)

/-- The method `CreateAccount`. -/
def CreateAccount (accSt : CacheState) (addr : Address) : CacheState :=
  match accSt.getAccountObject addr with
  | some _ => accSt
  | none => accSt.setAccountObject (newAccountObject addr)

/-- The method `AddBalance`. -/
def AddBalance (accSt : CacheState) (addr : Address) (amount : Int) : CacheState :=
  let (stateObject, accSt) := accSt.getOrsetAccountObject addr
  accSt.storeAt addr (stateObject.AddBalance amount)

/-- The method `GetBalance`; it creates the account object when there is none. -/
def GetBalance (accSt : CacheState) (addr : Address) : Int × CacheState :=
  let (stateObject, accSt) := accSt.getOrsetAccountObject addr
  (stateObject.GetBalance, accSt)

/-- The method `GetNonce`. -/
def GetNonce (accSt : CacheState) (addr : Address) : Nat × CacheState :=
  match accSt.getAccountObject addr with
  | some stateObject => (stateObject.GetNonce, accSt)
  | none => (0, accSt)

/-- The method `SetNonce`. -/
def SetNonce (accSt : CacheState) (addr : Address) (nonce : Nat) : CacheState :=
  let (stateObject, accSt) := accSt.getOrsetAccountObject addr
  accSt.storeAt addr (stateObject.SetNonce nonce)

/-- The method `GetState`. -/
def GetState (accSt : CacheState) (addr : Address) (key : Hash) : Hash × CacheState :=
  match accSt.getAccountObject addr with
  | some stateObject => (stateObject.GetStorageState key, accSt)
  | none => (zeroBytes 32, accSt)

/-- The method `SetState`; the `fmt.Printf` it makes is output only. -/
def SetState (accSt : CacheState) (addr : Address) (key value : Hash) : CacheState :=
  let (stateObject, accSt) := accSt.getOrsetAccountObject addr
  accSt.storeAt addr (stateObject.SetStorageState key value)

/-- The method `SelfDestruct`. -/
def SelfDestruct (accSt : CacheState) (addr : Address) : CacheState :=
  match accSt.getAccountObject addr with
  | none => accSt
  | some stateObject => accSt.storeAt addr stateObject.clearAlive

/-- The method `HasSelfDestructed`. -/
def HasSelfDestructed (accSt : CacheState) (addr : Address) : Bool × CacheState :=
  match accSt.getAccountObject addr with
  | none => (false, accSt)
  | some stateObject => (!stateObject.IsAlive, accSt)

/-- The method `Exist`. -/
def Exist (accSt : CacheState) (addr : Address) : Bool × CacheState :=
  ((accSt.getAccountObject addr).isSome, accSt)

/-- The method `RevertToSnapshot`: its body is empty. -/
def RevertToSnapshot (accSt : CacheState) (_id : Int) : CacheState := accSt

/-- The method `Snapshot`: it returns `0`. -/
def Snapshot (accSt : CacheState) : Int × CacheState := (0, accSt)

/-- The method `AddLog`: it stamps the log, then assigns the extended list to
`accSt.Logs[accSt.thash]`, which panics on a `nil` map. The result holds the log as stamped. -/
def AddLog (accSt : CacheState) (log : Log) : Option (Log × CacheState) :=
  let log : Log := ⟨log.Address, log.Topics, log.Data, log.BlockNumber, accSt.thash,
    (accSt.txIndex % (2 ^ 64 : Int)).toNat, log.BlockHash, accSt.logSize, log.Removed⟩
  let logs : List Log :=
    match accSt.Logs with
    | some m => (m accSt.thash).getD []
    | none => []
  match accSt.Logs with
  | none => none
  | some m =>
    some (log, ⟨accSt.Accounts,
      some (fun h => if h = accSt.thash then some (logs ++ [log]) else m h),
      accSt.thash, accSt.txIndex, accSt.logSize⟩)

/-- The method `SetTxContext`. -/
def SetTxContext (s : CacheState) (thash : Hash) (ti : Int) : CacheState :=
  ⟨s.Accounts, s.Logs, thash, ti, s.logSize⟩

end CacheState

/-- The method `addLogChange.revert`. Reading `s.Logs[ch.txhash]` gives `nil` on a `nil` map
and for an absent hash; `logs[:len(logs)-1]` panics on an empty list; `s.logSize--` wraps
at zero. -/
def addLogChange.revert (txhash : Hash) (s : CacheState) : Option CacheState :=
  let logs : List Log :=
    match s.Logs with
    | some m => (m txhash).getD []
    | none => []
  let logSize := (s.logSize + 2 ^ 64 - 1) % 2 ^ 64
  if logs.length = 1 then
    some ⟨s.Accounts, s.Logs.map (fun m h => if h = txhash then none else m h), s.thash,
      s.txIndex, logSize⟩
  else if logs.length = 0 then none
  else
    match s.Logs with
    | none => none
    | some m =>
      some ⟨s.Accounts, some (fun h => if h = txhash then some logs.dropLast else m h),
        s.thash, s.txIndex, logSize⟩

/-- The journal entry `addLogChange{txhash}`; its method `dirtied` returns `nil`. -/
def addLogChange (txhash : Hash) : journalEntry CacheState :=
  ⟨addLogChange.revert txhash, none⟩

/-- The method `createObjectChange.revert`: `delete(s.Accounts, *ch.account)`. -/
def createObjectChange.revert (account : Address) (s : CacheState) : Option CacheState :=
  some ⟨fun a => if a = account then none else s.Accounts a, s.Logs, s.thash, s.txIndex,
    s.logSize⟩

end cachestate

/-! ## Concrete inputs -/

namespace accesslist
open common

/-- The address `0xAA..AA`. -/
def addrAA : Address := ⟨List.replicate 20 170, by decide⟩

/-- The storage slot whose hash is the number `b`, as `common.BytesToHash([]byte{b})`. -/
def slot (b : Byte) : Hash := BytesToHash [b]

/-- The first unit of the spec's scenario: reads slot `0x01` and writes slot `0x02` of `0xAA..AA`. -/
def scenarioA : RW_AccessLists :=
  (NewRWAccessLists.AddReadAL addrAA (slot 1)).AddWriteAL addrAA (slot 2)

/-- The second unit of the spec's scenario: writes slot `0x01` of `0xAA..AA`. -/
def scenarioB : RW_AccessLists :=
  NewRWAccessLists.AddWriteAL addrAA (slot 1)

end accesslist

namespace cachestate

open common

/-- An entry over the state type `List Nat` whose undo records the number `n`. -/
def traceEntry (n : Nat) (addr : Option Address) : journalEntry (List Nat) :=
  ⟨fun st => some (st ++ [n]), addr⟩

/-- A journal of four entries, built by `append` and `dirty` from `newJournal`. -/
def scenarioJournal : journal (List Nat) :=
  ((((newJournal.append (traceEntry 0 (some accesslist.addrAA))).dirty accesslist.addrAA).append
    (traceEntry 1 (some (zeroBytes 20)))).append (traceEntry 2 (some accesslist.addrAA))).append
    (traceEntry 3 none)

end cachestate

namespace cachestate

open common

/-- Three entries over the state type `List Nat` that all dirtied `0xAA..AA`. -/
def sameAddressEntries : List (journalEntry (List Nat)) :=
  [traceEntry 0 (some accesslist.addrAA), traceEntry 1 (some accesslist.addrAA),
    traceEntry 2 (some accesslist.addrAA)]

/-- The spec's revert scenario on the state `s`: create account `a`, add balance 10, take
`id = Snapshot()`, set the nonce to 3, set slot `k` to `v`, call `RevertToSnapshot(id)`. -/
def snapshotScenario (s : CacheState) (a : Address) (k v : Hash) : CacheState :=
  let s := s.CreateAccount a
  let s := s.AddBalance a 10
  let (id, s) := s.Snapshot
  let s := s.SetNonce a 3
  let s := s.SetState a k v
  s.RevertToSnapshot id

/-- A cache state with an account for the zero address, an initialised empty log map and
the log counter at zero. -/
def scenarioState : CacheState :=
  ⟨(NewStateDB.CreateAccount (zeroBytes 20)).Accounts, some (fun _ => none),
    accesslist.slot 5, 2, 0⟩

/-- A log entry as a caller passes it to `AddLog`. -/
def scenarioLog : Log :=
  ⟨accesslist.addrAA, [accesslist.slot 3], [1, 2, 3], 0, zeroBytes 32, 0, zeroBytes 32, 0, false⟩

end cachestate

/-! ## Lemmas -/

namespace accesslist
open common

/-! ### Location keys -/

theorem Combine_val (a : Address) (h : Hash) : (Combine a h).val = a.val ++ h.val := by
  obtain ⟨a, ha⟩ := a
  obtain ⟨h, hh⟩ := h
  have e1 : min 52 20 = 20 := by decide
  have e2 : min (52 - 20) 32 = 32 := by decide
  have e3 : 52 - 20 = 32 := by decide
  have e4 : 20 + 32 = 52 := by decide
  have ta : List.take 20 a = a := List.take_of_length_le (by omega)
  have th : List.take 32 h = h := List.take_of_length_le (by omega)
  have t1 : List.take 20 (a ++ List.replicate 32 (0 : Byte)) = a := by
    rw [List.take_append_of_le_length (by omega), ta]
  have t2 : List.drop 52 (a ++ List.replicate 32 (0 : Byte)) = [] :=
    List.drop_of_length_le (by simp [ha])
  simp only [Combine, copyInto, zeroBytes, ha, hh, List.take_zero, List.nil_append,
    Nat.sub_zero, Nat.zero_add, List.drop_replicate, e1, e2, e3, e4, ta, th, t1, t2,
    List.append_nil]

theorem BytesToAddress_of_length (l : List Byte) (hl : l.length = 20) :
    BytesToAddress l = ⟨l, hl⟩ := by
  apply Subtype.ext
  simp [BytesToAddress, copyInto, zeroBytes, hl]

theorem BytesToHash_of_length (l : List Byte) (hl : l.length = 32) :
    BytesToHash l = ⟨l, hl⟩ := by
  apply Subtype.ext
  simp [BytesToHash, copyInto, zeroBytes, hl]

theorem Combine_split (key : Byte52) :
    Combine (BytesToAddress (key.val.take 20)) (BytesToHash (key.val.drop 20)) = key := by
  have hk := key.property
  have h1 : (key.val.take 20).length = 20 := by simp [hk]
  have h2 : (key.val.drop 20).length = 32 := by simp [hk]
  apply Subtype.ext
  rw [Combine_val, BytesToAddress_of_length _ h1, BytesToHash_of_length _ h2]
  exact List.take_append_drop 20 key.val

theorem Combine_inj {a1 a2 : Address} {h1 h2 : Hash} (h : Combine a1 h1 = Combine a2 h2) :
    a1 = a2 ∧ h1 = h2 := by
  have hv := congrArg Subtype.val h
  rw [Combine_val, Combine_val] at hv
  have := List.append_inj hv (by rw [a1.property, a2.property])
  exact ⟨Subtype.ext this.1, Subtype.ext this.2⟩

/-! ### Access sets and access lists -/

theorem ALTuple.Contains_iff (t : ALTuple) (key : Byte52) :
    t.Contains key = true ↔ key ∈ t.keys := by
  simp [ALTuple.Contains]

theorem ALTuple.mem_Add (t : ALTuple) (a : Address) (h : Hash) (key : Byte52) :
    key ∈ (t.Add a h).keys ↔ key ∈ t.keys ∨ key = Combine a h := by
  unfold ALTuple.Add
  by_cases ok : Combine a h ∈ t.keys
  · simp only [ok, dite_true]
    constructor
    · exact Or.inl
    · rintro (hk | hk)
      · exact hk
      · exact hk ▸ ok
  · simp only [ok, dite_false, List.mem_append, List.mem_singleton]

theorem ALTuple.Add_of_mem (t : ALTuple) (a : Address) (h : Hash)
    (ok : Combine a h ∈ t.keys) : t.Add a h = t := by
  unfold ALTuple.Add
  simp only [ok, dite_true]

namespace RW_AccessLists

theorem mem_Merge_loop (l : List Byte52) (t : ALTuple) (key : Byte52) :
    key ∈ (Merge.loop l t).keys ↔ key ∈ t.keys ∨ key ∈ l := by
  induction l generalizing t with
  | nil => simp [Merge.loop]
  | cons k rest ih =>
    rw [Merge.loop, ih, ALTuple.mem_Add, Combine_split, List.mem_cons]
    tauto

theorem readLoop_iff (other : RW_AccessLists) (l : List Byte52) :
    HasConflict.readLoop other l = true ↔ ∃ key, key ∈ l ∧ key ∈ other.WriteAL.keys := by
  induction l with
  | nil => simp [HasConflict.readLoop]
  | cons k rest ih =>
    rw [HasConflict.readLoop]
    by_cases hk : k ∈ other.WriteAL.keys
    · have : other.WriteAL.Contains k = true := (ALTuple.Contains_iff _ _).2 hk
      simp only [this, if_true, true_iff]
      exact ⟨k, List.mem_cons_self k rest, hk⟩
    · have : other.WriteAL.Contains k = false := by
        rw [← Bool.not_eq_true, ALTuple.Contains_iff]; exact hk
      simp only [this, Bool.false_eq_true, if_false, ih, List.mem_cons]
      constructor
      · rintro ⟨key, h1, h2⟩
        exact ⟨key, Or.inr h1, h2⟩
      · rintro ⟨key, h1 | h1, h2⟩
        · exact absurd (h1 ▸ h2) hk
        · exact ⟨key, h1, h2⟩

theorem writeLoop_iff (other : RW_AccessLists) (l : List Byte52) :
    HasConflict.writeLoop other l = true ↔
      (∃ key, key ∈ l ∧ key ∈ other.WriteAL.keys) ∨
      (∃ key, key ∈ l ∧ key ∈ other.ReadAL.keys) := by
  induction l with
  | nil => simp [HasConflict.writeLoop]
  | cons k rest ih =>
    rw [HasConflict.writeLoop]
    by_cases hw : k ∈ other.WriteAL.keys
    · have : other.WriteAL.Contains k = true := (ALTuple.Contains_iff _ _).2 hw
      simp only [this, if_true, true_iff]
      exact Or.inl ⟨k, List.mem_cons_self k rest, hw⟩
    · have cw : other.WriteAL.Contains k = false := by
        rw [← Bool.not_eq_true, ALTuple.Contains_iff]; exact hw
      by_cases hr : k ∈ other.ReadAL.keys
      · have : other.ReadAL.Contains k = true := (ALTuple.Contains_iff _ _).2 hr
        simp only [cw, this, Bool.false_eq_true, if_false, if_true, true_iff]
        exact Or.inr ⟨k, List.mem_cons_self k rest, hr⟩
      · have cr : other.ReadAL.Contains k = false := by
          rw [← Bool.not_eq_true, ALTuple.Contains_iff]; exact hr
        simp only [cw, cr, Bool.false_eq_true, if_false, ih, List.mem_cons]
        constructor
        · rintro (⟨key, h1, h2⟩ | ⟨key, h1, h2⟩)
          · exact Or.inl ⟨key, Or.inr h1, h2⟩
          · exact Or.inr ⟨key, Or.inr h1, h2⟩
        · rintro (⟨key, h1 | h1, h2⟩ | ⟨key, h1 | h1, h2⟩)
          · exact absurd (h1 ▸ h2) hw
          · exact Or.inl ⟨key, h1, h2⟩
          · exact absurd (h1 ▸ h2) hr
          · exact Or.inr ⟨key, h1, h2⟩

theorem HasConflict_iff (A B : RW_AccessLists) :
    A.HasConflict B = true ↔
      (∃ key, key ∈ A.ReadAL.keys ∧ key ∈ B.WriteAL.keys) ∨
      (∃ key, key ∈ A.WriteAL.keys ∧ key ∈ B.WriteAL.keys) ∨
      (∃ key, key ∈ A.WriteAL.keys ∧ key ∈ B.ReadAL.keys) := by
  unfold HasConflict
  rw [← readLoop_iff, ← writeLoop_iff]
  cases HasConflict.readLoop B A.ReadAL.keys <;>
    cases HasConflict.writeLoop B A.WriteAL.keys <;> simp

theorem Equal_loop_iff (o : ALTuple) (l : List Byte52) :
    Equal.loop o l = true ↔ ∀ key, key ∈ l → key ∈ o.keys := by
  induction l with
  | nil => simp [Equal.loop]
  | cons k rest ih =>
    rw [Equal.loop]
    by_cases hk : k ∈ o.keys
    · have : o.Contains k = true := (ALTuple.Contains_iff _ _).2 hk
      simp only [this, Bool.not_true, Bool.false_eq_true, if_false, ih, List.mem_cons]
      constructor
      · rintro h key (rfl | h1)
        · exact hk
        · exact h key h1
      · intro h key h1
        exact h key (Or.inr h1)
    · have : o.Contains k = false := by
        rw [← Bool.not_eq_true, ALTuple.Contains_iff]; exact hk
      simp only [this, Bool.not_false, if_true, Bool.false_eq_true, false_iff]
      intro h
      exact hk (h k (List.mem_cons_self k rest))

theorem same_members_of_len (t u : ALTuple) (hlen : t.len = u.len)
    (hsub : ∀ key, key ∈ t.keys → key ∈ u.keys) : ∀ key, key ∈ t.keys ↔ key ∈ u.keys := by
  have hp : t.keys.Perm u.keys :=
    (List.Nodup.subperm t.nodup hsub).perm_of_length_le (le_of_eq hlen.symm)
  intro key
  exact hp.mem_iff

theorem len_of_same_members (t u : ALTuple)
    (h : ∀ key, key ∈ t.keys ↔ key ∈ u.keys) : t.len = u.len :=
  ((List.perm_ext_iff_of_nodup t.nodup u.nodup).2 h).length_eq

theorem Equal_iff (A B : RW_AccessLists) :
    A.Equal B = true ↔
      (∀ key, key ∈ A.ReadAL.keys ↔ key ∈ B.ReadAL.keys) ∧
      (∀ key, key ∈ A.WriteAL.keys ↔ key ∈ B.WriteAL.keys) := by
  unfold Equal
  constructor
  · intro h
    by_cases h1 : A.ReadAL.len ≠ B.ReadAL.len
    · simp [h1] at h
    by_cases h2 : A.WriteAL.len ≠ B.WriteAL.len
    · simp [h1, h2] at h
    rw [if_neg h1, if_neg h2] at h
    have l1 : Equal.loop B.ReadAL A.ReadAL.keys = true := by
      cases hh : Equal.loop B.ReadAL A.ReadAL.keys
      · simp [hh] at h
      · rfl
    have l2 : Equal.loop B.WriteAL A.WriteAL.keys = true := by
      cases hh : Equal.loop B.WriteAL A.WriteAL.keys
      · simp [l1, hh] at h
      · rfl
    exact ⟨same_members_of_len _ _ (not_not.1 h1) ((Equal_loop_iff _ _).1 l1),
      same_members_of_len _ _ (not_not.1 h2) ((Equal_loop_iff _ _).1 l2)⟩
  · rintro ⟨hr, hw⟩
    have h1 := len_of_same_members _ _ hr
    have h2 := len_of_same_members _ _ hw
    have l1 : Equal.loop B.ReadAL A.ReadAL.keys = true :=
      (Equal_loop_iff _ _).2 (fun key hk => (hr key).1 hk)
    have l2 : Equal.loop B.WriteAL A.WriteAL.keys = true :=
      (Equal_loop_iff _ _).2 (fun key hk => (hw key).1 hk)
    simp [h1, h2, l1, l2]

end RW_AccessLists
end accesslist

namespace common

/-! ### Hexadecimal text -/

theorem fromHexChar_hextable (n : Fin 16) :
    fromHexChar (hextable.getD n.val 0) = some n.val := by
  revert n
  decide

theorem Hex2Bytes_hexEncode (l : List Byte) : Hex2Bytes (hexEncode l) = l := by
  induction l with
  | nil => rfl
  | cons v rest ih =>
    have h1 := fromHexChar_hextable ⟨v.val / 16, by omega⟩
    have h2 := fromHexChar_hextable ⟨v.val % 16, by omega⟩
    simp only at h1 h2
    rw [hexEncode, Hex2Bytes, h1, h2]
    simp only [ih, List.cons.injEq, and_true]
    apply Fin.ext
    rw [Fin.ofNat]
    simp only
    omega

theorem length_hexEncode (l : List Byte) : (hexEncode l).length = 2 * l.length := by
  induction l with
  | nil => rfl
  | cons v rest ih => simp only [hexEncode, List.length_cons, ih]; omega

theorem HexToHash_Hex (h : Hash) : HexToHash h.Hex = h := by
  have hl := length_hexEncode h.val
  rw [h.property] at hl
  have e : h.Hex = (48 : Byte) :: 120 :: hexEncode h.val := rfl
  have hp : has0xPrefix h.Hex = true := by rw [e]; rfl
  have hd : List.drop 2 h.Hex = hexEncode h.val := by rw [e]; rfl
  unfold HexToHash FromHex
  simp only [hp, if_true, hd, hl]
  norm_num
  rw [Hex2Bytes_hexEncode, BytesToHash]
  apply Subtype.ext
  simp [copyInto, zeroBytes, h.property]

end common

namespace accesslist
open common

/-! ### Labels -/

theorem encodeHash_decodeHash (hash : Hash) : encodeHash (decodeHash hash) = hash := by
  unfold decodeHash
  by_cases h1 : hash = CODE
  · rw [if_pos h1, h1]; rfl
  rw [if_neg h1]
  by_cases h2 : hash = BALANCE
  · rw [if_pos h2, h2]; rfl
  rw [if_neg h2]
  by_cases h3 : hash = ALIVE
  · rw [if_pos h3, h3]; rfl
  rw [if_neg h3]
  by_cases h4 : hash = CODEHASH
  · rw [if_pos h4, h4]; rfl
  rw [if_neg h4]
  by_cases h5 : hash = NONCE
  · rw [if_pos h5, h5]; rfl
  rw [if_neg h5]
  have e : hash.Hex = (48 : Byte) :: 120 :: hexEncode hash.val := rfl
  have n1 : hash.Hex ≠ ascii "code" := by rw [e]; intro h; exact absurd (List.cons.inj h).1 (by decide)
  have n2 : hash.Hex ≠ ascii "balance" := by rw [e]; intro h; exact absurd (List.cons.inj h).1 (by decide)
  have n3 : hash.Hex ≠ ascii "alive" := by rw [e]; intro h; exact absurd (List.cons.inj h).1 (by decide)
  have n4 : hash.Hex ≠ ascii "codeHash" := by rw [e]; intro h; exact absurd (List.cons.inj h).1 (by decide)
  have n5 : hash.Hex ≠ ascii "nonce" := by rw [e]; intro h; exact absurd (List.cons.inj h).1 (by decide)
  unfold encodeHash
  rw [if_neg n1, if_neg n2, if_neg n3, if_neg n4, if_neg n5]
  exact HexToHash_Hex hash

/-! ### Serialization round trip -/

theorem marshalAssign_append (m : MarshalMap) (k : Address) (v : GoString)
    (a : Address) (s : GoString) :
    (∃ l, (a, l) ∈ marshalAssign m k (marshalIndex m k ++ [v]) ∧ s ∈ l) ↔
      (∃ l, (a, l) ∈ m ∧ s ∈ l) ∨ (a = k ∧ s = v) := by
  induction m with
  | nil =>
    simp only [marshalAssign, marshalIndex, List.nil_append, List.mem_singleton,
      Prod.mk.injEq, List.not_mem_nil, false_and, exists_false, false_or]
    constructor
    · rintro ⟨l, ⟨h1, h2⟩, h3⟩
      subst h2
      exact ⟨h1, List.mem_singleton.1 h3⟩
    · rintro ⟨h1, h2⟩
      exact ⟨[v], ⟨h1, rfl⟩, List.mem_singleton.2 h2⟩
  | cons e rest ih =>
    obtain ⟨a0, l0⟩ := e
    by_cases hk : a0 = k
    · subst hk
      simp only [marshalAssign, marshalIndex, if_true, List.mem_cons, Prod.mk.injEq]
      constructor
      · rintro ⟨l, (⟨h1, h2⟩ | h1), h3⟩
        · subst h2
          rcases List.mem_append.1 h3 with h4 | h4
          · exact Or.inl ⟨l0, Or.inl ⟨h1, rfl⟩, h4⟩
          · exact Or.inr ⟨h1, List.mem_singleton.1 h4⟩
        · exact Or.inl ⟨l, Or.inr h1, h3⟩
      · rintro (⟨l, (⟨h1, h2⟩ | h1), h3⟩ | ⟨h1, h2⟩)
        · subst h2
          exact ⟨l ++ [v], Or.inl ⟨h1, rfl⟩, List.mem_append.2 (Or.inl h3)⟩
        · exact ⟨l, Or.inr h1, h3⟩
        · exact ⟨l0 ++ [v], Or.inl ⟨h1, rfl⟩,
            List.mem_append.2 (Or.inr (List.mem_singleton.2 h2))⟩
    · simp only [marshalAssign, marshalIndex, if_neg hk, List.mem_cons, Prod.mk.injEq]
      constructor
      · rintro ⟨l, (⟨h1, h2⟩ | h1), h3⟩
        · exact Or.inl ⟨l, Or.inl ⟨h1, h2⟩, h3⟩
        · rcases ih.1 ⟨l, h1, h3⟩ with ⟨l2, h4, h5⟩ | h4
          · exact Or.inl ⟨l2, Or.inr h4, h5⟩
          · exact Or.inr h4
      · rintro (⟨l, (⟨h1, h2⟩ | h1), h3⟩ | h1)
        · exact ⟨l, Or.inl ⟨h1, h2⟩, h3⟩
        · obtain ⟨l2, h4, h5⟩ := ih.2 (Or.inl ⟨l, h1, h3⟩)
          exact ⟨l2, Or.inr h4, h5⟩
        · obtain ⟨l2, h4, h5⟩ := ih.2 (Or.inr h1)
          exact ⟨l2, Or.inr h4, h5⟩

theorem ToMarshal_loop_iff (keys : List Byte52) (m : MarshalMap) (a : Address) (s : GoString) :
    (∃ l, (a, l) ∈ RW_AccessLists.ToMarshal.loop keys m ∧ s ∈ l) ↔
      (∃ l, (a, l) ∈ m ∧ s ∈ l) ∨
      (∃ key, key ∈ keys ∧ a = BytesToAddress (key.val.take 20) ∧
        s = decodeHash (BytesToHash (key.val.drop 20))) := by
  induction keys generalizing m with
  | nil => simp [RW_AccessLists.ToMarshal.loop]
  | cons k rest ih =>
    rw [RW_AccessLists.ToMarshal.loop, ih, marshalAssign_append]
    constructor
    · rintro ((h | h) | ⟨key, h1, h2⟩)
      · exact Or.inl h
      · exact Or.inr ⟨k, List.mem_cons_self _ _, h⟩
      · exact Or.inr ⟨key, List.mem_cons_of_mem _ h1, h2⟩
    · rintro (h | ⟨key, h1, h2⟩)
      · exact Or.inl (Or.inl h)
      · rcases List.mem_cons.1 h1 with h3 | h3
        · subst h3
          exact Or.inl (Or.inr h2)
        · exact Or.inr ⟨key, h3, h2⟩

theorem ToRWAL_inner_iff (addr : Address) (l : List GoString) (t : ALTuple) (key : Byte52) :
    key ∈ (RW_AccessLists_Marshal.ToRWAL.inner addr l t).keys ↔
      key ∈ t.keys ∨ ∃ s, s ∈ l ∧ key = Combine addr (encodeHash s) := by
  induction l generalizing t with
  | nil => simp [RW_AccessLists_Marshal.ToRWAL.inner]
  | cons s rest ih =>
    rw [RW_AccessLists_Marshal.ToRWAL.inner, ih, ALTuple.mem_Add]
    constructor
    · rintro ((h | h) | ⟨s2, h1, h2⟩)
      · exact Or.inl h
      · exact Or.inr ⟨s, List.mem_cons_self _ _, h⟩
      · exact Or.inr ⟨s2, List.mem_cons_of_mem _ h1, h2⟩
    · rintro (h | ⟨s2, h1, h2⟩)
      · exact Or.inl (Or.inl h)
      · rcases List.mem_cons.1 h1 with h3 | h3
        · subst h3
          exact Or.inl (Or.inr h2)
        · exact Or.inr ⟨s2, h3, h2⟩

theorem ToRWAL_outer_iff (m : MarshalMap) (t : ALTuple) (key : Byte52) :
    key ∈ (RW_AccessLists_Marshal.ToRWAL.outer m t).keys ↔
      key ∈ t.keys ∨
      ∃ a s, (∃ l, (a, l) ∈ m ∧ s ∈ l) ∧ key = Combine a (encodeHash s) := by
  induction m generalizing t with
  | nil => simp [RW_AccessLists_Marshal.ToRWAL.outer]
  | cons e rest ih =>
    obtain ⟨a0, l0⟩ := e
    rw [RW_AccessLists_Marshal.ToRWAL.outer, ih, ToRWAL_inner_iff]
    constructor
    · rintro ((h | ⟨s, h1, h2⟩) | ⟨a, s, ⟨l, h1, h2⟩, h3⟩)
      · exact Or.inl h
      · exact Or.inr ⟨a0, s, ⟨l0, List.mem_cons_self _ _, h1⟩, h2⟩
      · exact Or.inr ⟨a, s, ⟨l, List.mem_cons_of_mem _ h1, h2⟩, h3⟩
    · rintro (h | ⟨a, s, ⟨l, h1, h2⟩, h3⟩)
      · exact Or.inl (Or.inl h)
      · rcases List.mem_cons.1 h1 with h4 | h4
        · obtain ⟨rfl, rfl⟩ := Prod.mk.inj h4
          exact Or.inl (Or.inr ⟨s, h2, h3⟩)
        · exact Or.inr ⟨a, s, ⟨l, h4, h2⟩, h3⟩

theorem roundtrip_keys (keys : List Byte52) (key : Byte52) :
    key ∈ (RW_AccessLists_Marshal.ToRWAL.outer (RW_AccessLists.ToMarshal.loop keys [])
      ALTuple.empty).keys ↔ key ∈ keys := by
  rw [ToRWAL_outer_iff]
  constructor
  · rintro (h | ⟨a, s, h1, h2⟩)
    · exact absurd h (List.not_mem_nil _)
    · rcases (ToMarshal_loop_iff keys [] a s).1 h1 with ⟨l, h3, _⟩ | ⟨k, h3, h4, h5⟩
      · exact absurd h3 (List.not_mem_nil _)
      · rw [h2, h4, h5, encodeHash_decodeHash, Combine_split]
        exact h3
  · intro h
    refine Or.inr ⟨BytesToAddress (key.val.take 20),
      decodeHash (BytesToHash (key.val.drop 20)), ?_, ?_⟩
    · exact (ToMarshal_loop_iff keys [] _ _).2 (Or.inr ⟨key, h, rfl, rfl⟩)
    · rw [encodeHash_decodeHash, Combine_split]

end accesslist

namespace cachestate
open common

variable {σ : Type}

/-! ### The revert loop -/

theorem revert_loop_zero (entries : List (journalEntry σ)) (snapshot : Int) (d : DirtyMap)
    (statedb : σ) :
    journal.revert.loop entries snapshot 0 d statedb =
      if (-1 : Int) ≥ snapshot then Except.error d else Except.ok (d, statedb) := rfl

theorem revert_loop_stop (entries : List (journalEntry σ)) (snapshot : Int) (i : Nat)
    (d : DirtyMap) (statedb : σ) (h : ¬ (i : Int) ≥ snapshot) :
    journal.revert.loop entries snapshot (i + 1) d statedb = Except.ok (d, statedb) := by
  unfold journal.revert.loop
  rw [if_neg h]

theorem revert_loop_undo_none (entries : List (journalEntry σ)) (snapshot : Int) (i : Nat)
    (d : DirtyMap) (statedb : σ) (e : journalEntry σ) (h : (i : Int) ≥ snapshot)
    (he : entries[i]? = some e) (hr : e.revert statedb = none) :
    journal.revert.loop entries snapshot (i + 1) d statedb = Except.error d := by
  unfold journal.revert.loop
  rw [if_pos h, he]
  simp only [hr]

theorem revert_loop_clean (entries : List (journalEntry σ)) (snapshot : Int) (i : Nat)
    (d : DirtyMap) (statedb st2 : σ) (e : journalEntry σ) (h : (i : Int) ≥ snapshot)
    (he : entries[i]? = some e) (hr : e.revert statedb = some st2) (hd : e.dirtied = none) :
    journal.revert.loop entries snapshot (i + 1) d statedb =
      journal.revert.loop entries snapshot i d st2 := by
  conv => lhs; unfold journal.revert.loop
  rw [if_pos h, he]
  simp only [hr, hd]

theorem revert_loop_dirtied (entries : List (journalEntry σ)) (snapshot : Int) (i : Nat)
    (d : DirtyMap) (statedb st2 : σ) (e : journalEntry σ) (addr : Address)
    (h : (i : Int) ≥ snapshot)
    (he : entries[i]? = some e) (hr : e.revert statedb = some st2)
    (hd : e.dirtied = some addr) :
    journal.revert.loop entries snapshot (i + 1) d statedb =
      if ((d.assign addr (GoInt.wrap ((d.index addr).val - 1))).index addr).val = 0 then
        journal.revert.loop entries snapshot i
          ((d.assign addr (GoInt.wrap ((d.index addr).val - 1))).delete addr) st2
      else
        journal.revert.loop entries snapshot i
          (d.assign addr (GoInt.wrap ((d.index addr).val - 1))) st2 := by
  conv => lhs; unfold journal.revert.loop
  rw [if_pos h, he]
  simp only [hr, hd]

theorem take_succ_getElem (l : List (journalEntry σ)) (k : Nat) (e : journalEntry σ)
    (he : l[k]? = some e) : l.take (k + 1) = l.take k ++ [e] := by
  rw [List.take_succ, he]
  rfl

/-- The state part of the loop's result, `none` for a panic. -/
theorem revert_loop_state (entries : List (journalEntry σ)) (s : Nat) :
    ∀ (k : Nat), s ≤ k → k ≤ entries.length → ∀ (dirties : DirtyMap) (statedb : σ),
      (journal.revert.loop entries (s : Int) k dirties statedb).toOption.map Prod.snd =
        List.foldlM (fun st (e : journalEntry σ) => e.revert st) statedb
          ((entries.take k).drop s).reverse := by
  intro k
  induction k with
  | zero =>
    intro hs _ dirties statedb
    have h0 : s = 0 := Nat.le_zero.1 hs
    subst h0
    rw [revert_loop_zero]
    simp [Except.toOption]
  | succ k ih =>
    intro hs hk dirties statedb
    by_cases hge : (k : Int) ≥ (s : Int)
    · have hsk : s ≤ k := Int.ofNat_le.1 hge
      have hlt : k < entries.length := hk
      obtain ⟨e, he⟩ : ∃ e, entries[k]? = some e := ⟨_, List.getElem?_eq_getElem hlt⟩
      have hk2 : k ≤ entries.length := Nat.le_of_lt hlt
      rw [take_succ_getElem entries k e he,
        List.drop_append_of_le_length (by rw [List.length_take]; omega),
        List.reverse_append, List.reverse_singleton, List.singleton_append, List.foldlM_cons]
      cases hr : e.revert statedb with
      | none =>
        rw [revert_loop_undo_none entries _ k dirties statedb e hge he hr]
        rfl
      | some st2 =>
        simp only [Option.bind_eq_bind, Option.some_bind]
        cases hd : e.dirtied with
        | none =>
          rw [revert_loop_clean entries _ k dirties statedb st2 e hge he hr hd]
          exact ih hsk hk2 dirties st2
        | some addr =>
          rw [revert_loop_dirtied entries _ k dirties statedb st2 e addr hge he hr hd]
          split
          · exact ih hsk hk2 _ st2
          · exact ih hsk hk2 _ st2
    · have hsk : s = k + 1 := by
        have : ¬ s ≤ k := fun h => hge (Int.ofNat_le.2 h)
        omega
      rw [revert_loop_stop entries _ k dirties statedb hge, hsk,
        List.drop_of_length_le (by rw [List.length_take]; omega)]
      rfl

theorem revert_eq_of_loop_ok (j : journal σ) (statedb : σ) (s : Nat)
    (hs : s ≤ j.entries.length) (d : DirtyMap) (st : σ)
    (hl : journal.revert.loop j.entries (s : Int) j.entries.length j.dirties statedb =
      Except.ok (d, st)) :
    j.revert statedb (s : Int) = some (⟨j.entries.take s, d⟩, st) := by
  have hc : 0 ≤ (s : Int) ∧ (s : Int) ≤ (j.entries.length : Int) :=
    ⟨Int.ofNat_nonneg s, Int.ofNat_le.2 hs⟩
  unfold journal.revert
  rw [hl]
  simp only
  rw [if_pos hc]
  rfl

theorem revert_eq_of_loop_error (j : journal σ) (statedb : σ) (snapshot : Int) (d : DirtyMap)
    (hl : journal.revert.loop j.entries snapshot j.entries.length j.dirties statedb =
      Except.error d) :
    j.revert statedb snapshot = none := by
  unfold journal.revert
  rw [hl]

theorem revert_some_loop (j : journal σ) (statedb : σ) (s : Nat)
    (hs : s ≤ j.entries.length) (j2 : journal σ) (statedb2 : σ)
    (h : j.revert statedb (s : Int) = some (j2, statedb2)) :
    journal.revert.loop j.entries (s : Int) j.entries.length j.dirties statedb =
      Except.ok (j2.dirties, statedb2) ∧ j2.entries = j.entries.take s := by
  cases hl : journal.revert.loop j.entries (s : Int) j.entries.length j.dirties statedb with
  | error d =>
    rw [revert_eq_of_loop_error j statedb _ d hl] at h
    cases h
  | ok r =>
    obtain ⟨d, st⟩ := r
    rw [revert_eq_of_loop_ok j statedb s hs d st hl] at h
    cases h
    exact ⟨rfl, rfl⟩

theorem revert_entries (j : journal σ) (statedb : σ) (s : Nat)
    (hs : s ≤ j.entries.length) (j2 : journal σ) (statedb2 : σ)
    (h : j.revert statedb (s : Int) = some (j2, statedb2)) :
    j2.entries = j.entries.take s :=
  (revert_some_loop j statedb s hs j2 statedb2 h).2

theorem revert_state (j : journal σ) (statedb : σ) (s : Nat) (hs : s ≤ j.entries.length) :
    (j.revert statedb (s : Int)).map Prod.snd =
      List.foldlM (fun st (e : journalEntry σ) => e.revert st) statedb
        (j.entries.drop s).reverse := by
  have h := revert_loop_state j.entries s j.entries.length hs (Nat.le_refl _) j.dirties statedb
  rw [List.take_length] at h
  rw [← h]
  cases hl : journal.revert.loop j.entries (s : Int) j.entries.length j.dirties statedb with
  | error d =>
    rw [revert_eq_of_loop_error j statedb _ d hl]
    rfl
  | ok r =>
    obtain ⟨d, st⟩ := r
    rw [revert_eq_of_loop_ok j statedb s hs d st hl]
    rfl

theorem foldlM_revert_isSome (l : List (journalEntry σ))
    (h : ∀ e, e ∈ l → ∀ st, (e.revert st).isSome = true) (statedb : σ) :
    (List.foldlM (fun st (e : journalEntry σ) => e.revert st) statedb l).isSome = true := by
  induction l generalizing statedb with
  | nil => rfl
  | cons e rest ih =>
    rw [List.foldlM_cons]
    have he := h e (List.mem_cons_self _ _) statedb
    obtain ⟨st2, hst⟩ := Option.isSome_iff_exists.1 he
    rw [hst]
    exact ih (fun e2 h2 => h e2 (List.mem_cons_of_mem _ h2)) st2

/-! ### The dirty counts -/

theorem wrap_val (x : Int) :
    (GoInt.wrap x).val =
      (x + 9223372036854775808) % 18446744073709551616 - 9223372036854775808 := rfl

theorem wrap_val_of_range (x : Int) (h1 : -9223372036854775808 ≤ x)
    (h2 : x ≤ 9223372036854775807) : (GoInt.wrap x).val = x := by
  rw [wrap_val]
  omega

theorem wrap_self (c : GoInt) : GoInt.wrap c.val = c :=
  Subtype.ext (wrap_val_of_range c.val c.property.1 c.property.2)

theorem index_assign_self (d : DirtyMap) (addr : Address) (v : GoInt) :
    (d.assign addr v).index addr = v := by
  simp [DirtyMap.index, DirtyMap.assign]

theorem index_assign_ne (d : DirtyMap) (addr a : Address) (v : GoInt) (h : a ≠ addr) :
    (d.assign addr v).index a = d.index a := by
  simp [DirtyMap.index, DirtyMap.assign, h]

theorem index_delete_self (d : DirtyMap) (addr : Address) :
    ((d.delete addr).index addr).val = 0 := by
  simp [DirtyMap.index, DirtyMap.delete, wrap_val]

theorem index_delete_ne (d : DirtyMap) (addr a : Address) (h : a ≠ addr) :
    (d.delete addr).index a = d.index a := by
  simp [DirtyMap.index, DirtyMap.delete, h]

theorem index_of_none (d : DirtyMap) (a : Address) (h : d a = none) : (d.index a).val = 0 := by
  simp [DirtyMap.index, h, wrap_val]

theorem index_of_some (d : DirtyMap) (a : Address) (c : GoInt) (h : d a = some c) :
    d.index a = c := by
  simp [DirtyMap.index, h]

theorem positive_assign (d : DirtyMap) (addr : Address) (v : GoInt) (hv : 0 < v.val)
    (hpos : ∀ a c, d a = some c → 0 < c.val) :
    ∀ a c, (d.assign addr v) a = some c → 0 < c.val := by
  intro a c h
  unfold DirtyMap.assign at h
  by_cases ha : a = addr
  · rw [if_pos ha] at h
    cases h
    exact hv
  · rw [if_neg ha] at h
    exact hpos a c h

theorem index_nonneg (d : DirtyMap) (hpos : ∀ a c, d a = some c → 0 < c.val) (a : Address) :
    0 ≤ (d.index a).val := by
  cases h : d a with
  | none => rw [index_of_none d a h]
  | some c =>
    rw [index_of_some d a c h]
    exact le_of_lt (hpos a c h)

theorem delete_assign_positive (d : DirtyMap) (addr : Address) (v : GoInt)
    (hpos : ∀ a c, d a = some c → 0 < c.val) :
    ∀ a c, ((d.assign addr v).delete addr) a = some c → 0 < c.val := by
  intro a c h
  unfold DirtyMap.delete DirtyMap.assign at h
  by_cases ha : a = addr
  · rw [if_pos ha] at h
    cases h
  · rw [if_neg ha, if_neg ha] at h
    exact hpos a c h

theorem countP_snoc (a : Address) (l : List (journalEntry σ)) (e : journalEntry σ) :
    ((l ++ [e]).countP (fun x => decide (x.dirtied = some a)) : Int) =
      (l.countP (fun x => decide (x.dirtied = some a)) : Int) +
        (if e.dirtied = some a then 1 else 0) := by
  rw [List.countP_append, List.countP_cons, List.countP_nil]
  by_cases h : e.dirtied = some a <;> simp [h]

theorem revert_loop_inv (entries : List (journalEntry σ)) (s : Nat) :
    ∀ (k : Nat), s ≤ k → k ≤ entries.length → ∀ (d : DirtyMap) (statedb : σ)
      (d2 : DirtyMap) (statedb2 : σ),
      (∀ a c, d a = some c → 0 < c.val) →
      (∀ a, ((entries.take k).countP (fun x => decide (x.dirtied = some a)) : Int)
        ≤ (d.index a).val) →
      journal.revert.loop entries (s : Int) k d statedb = Except.ok (d2, statedb2) →
      (∀ a c, d2 a = some c → 0 < c.val) ∧
      (∀ a, ((entries.take s).countP (fun x => decide (x.dirtied = some a)) : Int)
        ≤ (d2.index a).val) := by
  intro k
  induction k with
  | zero =>
    intro hs _ d statedb d2 statedb2 hpos hcnt h
    have h0 : s = 0 := Nat.le_zero.1 hs
    subst h0
    rw [revert_loop_zero] at h
    simp at h
    obtain ⟨rfl, _⟩ := h
    exact ⟨hpos, hcnt⟩
  | succ k ih =>
    intro hs hk d statedb d2 statedb2 hpos hcnt h
    by_cases hge : (k : Int) ≥ (s : Int)
    · have hsk : s ≤ k := Int.ofNat_le.1 hge
      have hlt : k < entries.length := hk
      obtain ⟨e, he⟩ : ∃ e, entries[k]? = some e := ⟨_, List.getElem?_eq_getElem hlt⟩
      have hk2 : k ≤ entries.length := Nat.le_of_lt hlt
      rw [take_succ_getElem entries k e he] at hcnt
      cases hr : e.revert statedb with
      | none =>
        rw [revert_loop_undo_none entries _ k d statedb e hge he hr] at h
        cases h
      | some st2 =>
        cases hd : e.dirtied with
        | none =>
          rw [revert_loop_clean entries _ k d statedb st2 e hge he hr hd] at h
          refine ih hsk hk2 d st2 d2 statedb2 hpos ?_ h
          intro a
          have := hcnt a
          rw [countP_snoc, hd] at this
          simpa using this
        | some addr =>
          rw [revert_loop_dirtied entries _ k d statedb st2 e addr hge he hr hd,
            index_assign_self] at h
          have hc1 := hcnt addr
          rw [countP_snoc, hd, if_pos rfl] at hc1
          have hcn : (0 : Int) ≤ (List.countP (fun x => decide (x.dirtied = some addr))
              (List.take k entries) : Int) := Int.ofNat_nonneg _
          have hother : ∀ a, a ≠ addr →
              ((entries.take k).countP (fun x => decide (x.dirtied = some a)) : Int)
                ≤ (d.index a).val := by
            intro a ha
            have := hcnt a
            rw [countP_snoc, hd] at this
            have hne : ¬ (some addr = some a) := fun hh => ha (Option.some.inj hh).symm
            rw [if_neg hne] at this
            simpa using this
          have hrange := (d.index addr).property
          have hdec : (GoInt.wrap ((d.index addr).val - 1)).val = (d.index addr).val - 1 :=
            wrap_val_of_range _ (by omega) (by omega)
          rw [hdec] at h
          by_cases hz : (d.index addr).val - 1 = 0
          · rw [if_pos hz] at h
            refine ih hsk hk2 _ st2 d2 statedb2 (delete_assign_positive d addr _ hpos) ?_ h
            intro a
            by_cases ha : a = addr
            · subst ha
              rw [index_delete_self]
              omega
            · rw [index_delete_ne _ _ _ ha, index_assign_ne _ _ _ _ ha]
              exact hother a ha
          · rw [if_neg hz] at h
            refine ih hsk hk2 _ st2 d2 statedb2
              (positive_assign d addr _ (by rw [hdec]; omega) hpos) ?_ h
            intro a
            by_cases ha : a = addr
            · subst ha
              rw [index_assign_self, hdec]
              omega
            · rw [index_assign_ne _ _ _ _ ha]
              exact hother a ha
    · have hsk : s = k + 1 := by
        have : ¬ s ≤ k := fun h => hge (Int.ofNat_le.2 h)
        omega
      rw [revert_loop_stop entries _ k d statedb hge] at h
      cases h
      subst hsk
      exact ⟨hpos, hcnt⟩

theorem reachable_inv (j : journal σ) (h : ReachableNormally j) :
    (∀ a c, j.dirties a = some c → 0 < c.val) ∧
    (∀ a, (j.entries.countP (fun x => decide (x.dirtied = some a)) : Int)
      ≤ (j.dirties.index a).val) := by
  induction h with
  | init =>
    constructor
    · intro a c h
      cases h
    · intro a
      simp [newJournal, DirtyMap.index, wrap_val]
  | append j entry _ hroom ih =>
    obtain ⟨hpos, hcnt⟩ := ih
    unfold journal.append
    cases hd : entry.dirtied with
    | none =>
      refine ⟨hpos, ?_⟩
      intro a
      simp only
      rw [countP_snoc, hd]
      simpa using hcnt a
    | some addr =>
      simp only
      have hnn := index_nonneg j.dirties hpos addr
      have hlt := hroom addr hd
      have hinc : (GoInt.wrap ((j.dirties.index addr).val + 1)).val =
          (j.dirties.index addr).val + 1 := wrap_val_of_range _ (by omega) (by omega)
      refine ⟨positive_assign _ addr _ (by rw [hinc]; omega) hpos, ?_⟩
      intro a
      rw [countP_snoc, hd]
      by_cases ha : a = addr
      · subst ha
        rw [index_assign_self, if_pos rfl, hinc]
        have := hcnt a
        omega
      · have hne : ¬ (some addr = some a) := fun hh => ha (Option.some.inj hh).symm
        rw [index_assign_ne _ _ _ _ ha, if_neg hne]
        simpa using hcnt a
  | dirty j addr _ hlt ih =>
    obtain ⟨hpos, hcnt⟩ := ih
    unfold journal.dirty
    simp only
    have hnn := index_nonneg j.dirties hpos addr
    have hinc : (GoInt.wrap ((j.dirties.index addr).val + 1)).val =
        (j.dirties.index addr).val + 1 := wrap_val_of_range _ (by omega) (by omega)
    refine ⟨positive_assign _ addr _ (by rw [hinc]; omega) hpos, ?_⟩
    intro a
    by_cases ha : a = addr
    · subst ha
      rw [index_assign_self, hinc]
      have := hcnt a
      omega
    · rw [index_assign_ne _ _ _ _ ha]
      exact hcnt a
  | revert j statedb snapshot j2 statedb2 _ h0 hle hrev ih =>
    obtain ⟨hpos, hcnt⟩ := ih
    obtain ⟨s, rfl⟩ := Int.eq_ofNat_of_zero_le h0
    have hs : s ≤ j.entries.length := Int.ofNat_le.1 hle
    obtain ⟨hl, hent⟩ := revert_some_loop j statedb s hs j2 statedb2 hrev
    have := revert_loop_inv j.entries s j.entries.length hs (Nat.le_refl _) j.dirties statedb
      j2.dirties statedb2 hpos (by rw [List.take_length]; exact hcnt) hl
    rw [hent]
    exact this

/-! ### Append followed by revert -/

theorem revert_loop_at_length (entries : List (journalEntry σ)) (n : Nat) (d : DirtyMap)
    (statedb : σ) :
    journal.revert.loop entries (n : Int) n d statedb = Except.ok (d, statedb) := by
  cases n with
  | zero =>
    rw [revert_loop_zero]
    simp
  | succ k =>
    apply revert_loop_stop
    intro h
    have := Int.ofNat_le.1 h
    omega

theorem revert_length (j : journal σ) (statedb : σ) :
    j.revert statedb j.length = some (j, statedb) := by
  have h := revert_eq_of_loop_ok j statedb j.entries.length (Nat.le_refl _) j.dirties statedb
    (revert_loop_at_length j.entries j.entries.length j.dirties statedb)
  rw [List.take_length] at h
  exact h

theorem append_entries (j : journal σ) (e : journalEntry σ) :
    (j.append e).entries = j.entries ++ [e] := by
  unfold journal.append
  cases e.dirtied <;> rfl

theorem append_revert (j : journal σ) (e : journalEntry σ) (statedb : σ)
    (hpos : ∀ a c, j.dirties a = some c → 0 < c.val) :
    (j.append e).revert statedb j.length = (e.revert statedb).map (fun st => (j, st)) := by
  have hent := append_entries j e
  have hlen : (j.append e).entries.length = j.entries.length + 1 := by
    rw [hent, List.length_append, List.length_singleton]
  have hget : (j.append e).entries[j.entries.length]? = some e := by
    rw [hent]
    simp
  have hge : ((j.entries.length : Nat) : Int) ≥ ((j.entries.length : Nat) : Int) := le_refl _
  have htake : List.take j.entries.length (j.append e).entries = j.entries := by
    rw [hent]
    simp
  cases hr : e.revert statedb with
  | none =>
    have hl := revert_loop_undo_none (j.append e).entries (j.entries.length : Int)
      j.entries.length (j.append e).dirties statedb e hge hget hr
    rw [← hlen] at hl
    exact revert_eq_of_loop_error (j.append e) statedb _ _ hl
  | some st2 =>
    rw [Option.map_some']
    have hfin : ∀ (d : DirtyMap), (∀ a, d a = j.dirties a) →
        journal.revert.loop (j.append e).entries (j.entries.length : Int)
          (j.append e).entries.length (j.append e).dirties statedb = Except.ok (d, st2) →
        (j.append e).revert statedb j.length = some (j, st2) := by
      intro d hd hl
      have h := revert_eq_of_loop_ok (j.append e) statedb j.entries.length
        (by rw [hlen]; exact Nat.le_succ _) d st2 hl
      rw [htake] at h
      have hdj : d = j.dirties := funext hd
      rw [hdj] at h
      exact h
    cases hd : e.dirtied with
    | none =>
      have hdir : (j.append e).dirties = j.dirties := by
        unfold journal.append
        rw [hd]
      apply hfin j.dirties (fun _ => rfl)
      rw [hlen, revert_loop_clean _ _ _ _ statedb st2 e hge hget hr hd, hdir]
      exact revert_loop_at_length _ _ _ _
    | some addr =>
      have hdir : (j.append e).dirties =
          j.dirties.assign addr (GoInt.wrap ((j.dirties.index addr).val + 1)) := by
        unfold journal.append
        rw [hd]
      have hrange := (j.dirties.index addr).property
      have hback : GoInt.wrap ((GoInt.wrap ((j.dirties.index addr).val + 1)).val - 1) =
          j.dirties.index addr := by
        apply Subtype.ext
        rw [wrap_val, wrap_val]
        omega
      have hstep := revert_loop_dirtied (j.append e).entries (j.entries.length : Int)
        j.entries.length (j.append e).dirties statedb st2 e addr hge hget hr hd
      rw [hdir, index_assign_self, index_assign_self, hback] at hstep
      by_cases hz : (j.dirties.index addr).val = 0
      · rw [if_pos hz, revert_loop_at_length] at hstep
        refine hfin _ ?_ (by rw [hlen, hdir]; exact hstep)
        intro a
        unfold DirtyMap.delete DirtyMap.assign
        by_cases ha : a = addr
        · rw [if_pos ha, ha]
          cases hda : j.dirties addr with
          | none => rfl
          | some c =>
            rw [index_of_some _ _ c hda] at hz
            have := hpos addr c hda
            omega
        · rw [if_neg ha, if_neg ha, if_neg ha]
      · rw [if_neg hz, revert_loop_at_length] at hstep
        refine hfin _ ?_ (by rw [hlen, hdir]; exact hstep)
        intro a
        unfold DirtyMap.assign
        by_cases ha : a = addr
        · rw [if_pos ha, ha]
          cases hda : j.dirties addr with
          | none => exact absurd (index_of_none _ _ hda) hz
          | some c => rw [index_of_some _ _ c hda]
        · rw [if_neg ha, if_neg ha]

/-! ### Records of one address -/

theorem foldl_append_entries (es : List (journalEntry σ)) (j : journal σ) :
    (es.foldl journal.append j).entries = j.entries ++ es := by
  induction es generalizing j with
  | nil => simp
  | cons e rest ih =>
    rw [List.foldl_cons, ih, append_entries, List.append_assoc, List.singleton_append]

theorem wrap_add (x y : Int) : GoInt.wrap ((GoInt.wrap x).val + y) = GoInt.wrap (x + y) := by
  apply Subtype.ext
  rw [wrap_val, wrap_val, wrap_val]
  omega

theorem foldl_append_index (a : Address) (es : List (journalEntry σ))
    (hall : ∀ e, e ∈ es → e.dirtied = some a) (j : journal σ) :
    (es.foldl journal.append j).dirties.index a =
      GoInt.wrap ((j.dirties.index a).val + (es.length : Int)) := by
  induction es generalizing j with
  | nil =>
    rw [List.foldl_nil, List.length_nil]
    simp only [Int.Nat.cast_ofNat_Int, Int.add_zero]
    exact (wrap_self _).symm
  | cons e rest ih =>
    have he : e.dirtied = some a := hall e (List.mem_cons_self _ _)
    have hj : (j.append e).dirties =
        j.dirties.assign a (GoInt.wrap ((j.dirties.index a).val + 1)) := by
      unfold journal.append
      rw [he]
    rw [List.foldl_cons, ih (fun e2 h2 => hall e2 (List.mem_cons_of_mem _ h2)) (j.append e),
      hj, index_assign_self, wrap_add, List.length_cons]
    congr 1
    push_cast
    omega

theorem revert_loop_same_address (a : Address) (entries : List (journalEntry σ))
    (hall : ∀ e, e ∈ entries → e.dirtied = some a) :
    ∀ (k : Nat), k ≤ entries.length → ∀ (d : DirtyMap) (statedb : σ)
      (d2 : DirtyMap) (statedb2 : σ),
      d.index a = GoInt.wrap (k : Int) → (k = 0 → d a = none) →
      journal.revert.loop entries 0 k d statedb = Except.ok (d2, statedb2) →
      d2 a = none := by
  intro k
  induction k with
  | zero =>
    intro _ d statedb d2 statedb2 _ hnone h
    rw [revert_loop_zero] at h
    simp at h
    rw [← h.1]
    exact hnone rfl
  | succ k ih =>
    intro hk d statedb d2 statedb2 hidx _ h
    have hlt : k < entries.length := hk
    obtain ⟨e, he⟩ : ∃ e, entries[k]? = some e := ⟨_, List.getElem?_eq_getElem hlt⟩
    have hmem : e ∈ entries := by
      rw [List.getElem?_eq_getElem hlt] at he
      cases he
      exact List.getElem_mem hlt
    have hda : e.dirtied = some a := hall e hmem
    have hge : (k : Int) ≥ ((0 : Nat) : Int) := Int.ofNat_nonneg k
    have hnew : GoInt.wrap ((d.index a).val - 1) = GoInt.wrap (k : Int) := by
      rw [hidx]
      apply Subtype.ext
      rw [wrap_val, wrap_val, wrap_val]
      push_cast
      omega
    cases hr : e.revert statedb with
    | none =>
      rw [show (0 : Int) = ((0 : Nat) : Int) from rfl,
        revert_loop_undo_none entries _ k d statedb e hge he hr] at h
      cases h
    | some st2 =>
      rw [show (0 : Int) = ((0 : Nat) : Int) from rfl,
        revert_loop_dirtied entries _ k d statedb st2 e a hge he hr hda,
        index_assign_self, hnew] at h
      by_cases hz : (GoInt.wrap (k : Int)).val = 0
      · rw [if_pos hz] at h
        refine ih (Nat.le_of_lt hlt) _ st2 d2 statedb2 ?_ ?_ h
        · apply Subtype.ext
          rw [index_delete_self, hz]
        · intro _
          simp [DirtyMap.delete]
      · rw [if_neg hz] at h
        refine ih (Nat.le_of_lt hlt) _ st2 d2 statedb2 (index_assign_self _ _ _) ?_ h
        intro hk0
        exfalso
        apply hz
        rw [hk0]
        rfl

theorem revert_zero_same_address (a : Address) (es : List (journalEntry σ))
    (hne : es ≠ []) (hall : ∀ e, e ∈ es → e.dirtied = some a) (statedb : σ)
    (j2 : journal σ) (statedb2 : σ)
    (h : (es.foldl journal.append newJournal).revert statedb 0 = some (j2, statedb2)) :
    j2.dirties a = none := by
  have hent : (es.foldl journal.append newJournal).entries = es := by
    rw [foldl_append_entries]
    rfl
  have hidx := foldl_append_index a es hall newJournal
  have hidx0 : ((newJournal : journal σ).dirties.index a).val = 0 := index_of_none _ _ rfl
  rw [hidx0, Int.zero_add] at hidx
  have hlen : es.length ≠ 0 := fun h0 => hne (List.length_eq_zero.1 h0)
  obtain ⟨hl, _⟩ := revert_some_loop (es.foldl journal.append newJournal) statedb 0
    (Nat.zero_le _) j2 statedb2 h
  rw [hent] at hl
  exact revert_loop_same_address a es hall es.length (Nat.le_refl _) _ statedb j2.dirties
    statedb2 hidx (fun h0 => absurd h0 hlen) hl

/-! ### A panicking revert and the wrap-around -/

theorem revertPanic_isSome (j : journal σ) (statedb : σ) (snapshot : Int) :
    (j.revertPanic statedb snapshot).isSome = (j.revert statedb snapshot).isNone := by
  unfold journal.revertPanic journal.revert
  cases journal.revert.loop j.entries snapshot j.entries.length j.dirties statedb with
  | error d => rfl
  | ok r =>
    obtain ⟨d, st⟩ := r
    simp only
    by_cases hc : 0 ≤ snapshot ∧ snapshot ≤ (j.entries.length : Int)
    · rw [if_pos hc, if_pos hc]
      rfl
    · rw [if_neg hc, if_neg hc]
      rfl

end cachestate

namespace cachestate
open common

/-! ### The four-entry journal -/

theorem scenarioJournal_normal : ReachableNormally scenarioJournal :=
  ReachableNormally.append _ _
    (ReachableNormally.append _ _
      (ReachableNormally.append _ _
        (ReachableNormally.dirty _ _
          (ReachableNormally.append _ _ ReachableNormally.init
            (fun addr h => by cases h; decide))
          (by decide))
        (fun addr h => by cases h; decide))
      (fun addr h => by cases h; decide))
    (fun addr h => by cases h)

end cachestate

namespace cachestate
open common

/-! ### The cache state -/

theorem getOrset_absent (s : CacheState) (a : Address) (h : s.Accounts a = none) :
    s.getOrsetAccountObject a = (newAccountObject a, s.setAccountObject (newAccountObject a)) := by
  unfold CacheState.getOrsetAccountObject CacheState.getAccountObject
  rw [h]

theorem getOrset_present (s : CacheState) (a : Address) (obj : accountObject)
    (h : s.Accounts a = some obj) : s.getOrsetAccountObject a = (obj, s) := by
  unfold CacheState.getOrsetAccountObject CacheState.getAccountObject
  rw [h]

theorem storeAt_accounts_self (s : CacheState) (a : Address) (obj old : accountObject)
    (h : s.Accounts a = some old) : (s.storeAt a obj).Accounts a = some obj := by
  simp [CacheState.storeAt, h]

theorem setAccountObject_new (s : CacheState) (a : Address) :
    (s.setAccountObject (newAccountObject a)).Accounts a = some (newAccountObject a) := by
  simp [CacheState.setAccountObject, newAccountObject]

theorem snapshotScenario_account (s : CacheState) (a : Address) (k v : Hash)
    (h : s.Accounts a = none) :
    (snapshotScenario s a k v).Accounts a =
      some ((((newAccountObject a).AddBalance 10).SetNonce 3).SetStorageState k v) := by
  have h1 : (s.CreateAccount a).Accounts a = some (newAccountObject a) := by
    unfold CacheState.CreateAccount CacheState.getAccountObject
    rw [h]
    exact setAccountObject_new s a
  unfold snapshotScenario
  simp only [CacheState.Snapshot, CacheState.RevertToSnapshot]
  unfold CacheState.SetState
  have h2 : ((s.CreateAccount a).AddBalance a 10).Accounts a =
      some ((newAccountObject a).AddBalance 10) := by
    unfold CacheState.AddBalance
    rw [getOrset_present _ a _ h1]
    exact storeAt_accounts_self _ _ _ _ h1
  have h3 : (((s.CreateAccount a).AddBalance a 10).SetNonce a 3).Accounts a =
      some (((newAccountObject a).AddBalance 10).SetNonce 3) := by
    unfold CacheState.SetNonce
    rw [getOrset_present _ a _ h2]
    exact storeAt_accounts_self _ _ _ _ h2
  rw [getOrset_present _ a _ h3]
  exact storeAt_accounts_self _ _ _ _ h3

end cachestate

/-! ## The claims -/

namespace accesslist
open common

/-- Claim C1: `A.HasConflict(B)` returns true exactly when one of the intersections
`A.ReadAL ∩ B.WriteAL`, `A.WriteAL ∩ B.WriteAL`, `A.WriteAL ∩ B.ReadAL` has a member; it
returns false exactly when all three are empty; and it returns true on the spec's scenario
(unit A reads slot `0x01` and writes slot `0x02` of `0xAA..AA`, unit B writes slot `0x01`). -/
theorem hasConflict_iff_intersections :
    (∀ A B : RW_AccessLists, A.HasConflict B = true ↔
      ((∃ key, key ∈ A.ReadAL.keys ∧ key ∈ B.WriteAL.keys) ∨
       (∃ key, key ∈ A.WriteAL.keys ∧ key ∈ B.WriteAL.keys) ∨
       (∃ key, key ∈ A.WriteAL.keys ∧ key ∈ B.ReadAL.keys))) ∧
    (∀ A B : RW_AccessLists, A.HasConflict B = false ↔
      ((¬ ∃ key, key ∈ A.ReadAL.keys ∧ key ∈ B.WriteAL.keys) ∧
       (¬ ∃ key, key ∈ A.WriteAL.keys ∧ key ∈ B.WriteAL.keys) ∧
       (¬ ∃ key, key ∈ A.WriteAL.keys ∧ key ∈ B.ReadAL.keys))) ∧
    scenarioA.HasConflict scenarioB = true := by
  refine ⟨RW_AccessLists.HasConflict_iff, ?_, by decide⟩
  intro A B
  rw [← Bool.not_eq_true, RW_AccessLists.HasConflict_iff, not_or, not_or]

/-- Claim C2: conflict detection is symmetric, `A.HasConflict(B) = B.HasConflict(A)` for all
access lists, read-only and write-only ones included. -/
theorem hasConflict_symm (A B : RW_AccessLists) : A.HasConflict B = B.HasConflict A := by
  rw [Bool.eq_iff_iff, RW_AccessLists.HasConflict_iff, RW_AccessLists.HasConflict_iff]
  constructor
  · rintro (⟨k, h1, h2⟩ | ⟨k, h1, h2⟩ | ⟨k, h1, h2⟩)
    · exact Or.inr (Or.inr ⟨k, h2, h1⟩)
    · exact Or.inr (Or.inl ⟨k, h2, h1⟩)
    · exact Or.inl ⟨k, h2, h1⟩
  · rintro (⟨k, h1, h2⟩ | ⟨k, h1, h2⟩ | ⟨k, h1, h2⟩)
    · exact Or.inr (Or.inr ⟨k, h2, h1⟩)
    · exact Or.inr (Or.inl ⟨k, h2, h1⟩)
    · exact Or.inl ⟨k, h2, h1⟩

/-- Claim C3: serialization round trip. For every access list `x`, `x.ToMarshal().ToRWAL()` has
exactly the read keys and exactly the write keys of `x`, and `Equal` between the two
returns true in both directions. -/
theorem marshal_roundtrip (x : RW_AccessLists) :
    (∀ key, key ∈ x.ToMarshal.ToRWAL.ReadAL.keys ↔ key ∈ x.ReadAL.keys) ∧
    (∀ key, key ∈ x.ToMarshal.ToRWAL.WriteAL.keys ↔ key ∈ x.WriteAL.keys) ∧
    x.ToMarshal.ToRWAL.Equal x = true ∧
    x.Equal x.ToMarshal.ToRWAL = true := by
  have hr : ∀ key, key ∈ x.ToMarshal.ToRWAL.ReadAL.keys ↔ key ∈ x.ReadAL.keys :=
    fun key => roundtrip_keys x.ReadAL.keys key
  have hw : ∀ key, key ∈ x.ToMarshal.ToRWAL.WriteAL.keys ↔ key ∈ x.WriteAL.keys :=
    fun key => roundtrip_keys x.WriteAL.keys key
  refine ⟨hr, hw, (RW_AccessLists.Equal_iff _ _).2 ⟨hr, hw⟩,
    (RW_AccessLists.Equal_iff _ _).2 ⟨fun key => (hr key).symm, fun key => (hw key).symm⟩⟩

/-- Claim C4: after `A.Merge(B)` the read set of `A` holds exactly the keys of the read sets of
`A` and `B`, the write set exactly the keys of the write sets of `A` and `B`; splitting a
key into `key[:20]` and `key[20:]` and combining the parts again gives the key back. -/
theorem merge_union (A B : RW_AccessLists) :
    (∀ key, key ∈ (A.Merge B).ReadAL.keys ↔ key ∈ A.ReadAL.keys ∨ key ∈ B.ReadAL.keys) ∧
    (∀ key, key ∈ (A.Merge B).WriteAL.keys ↔ key ∈ A.WriteAL.keys ∨ key ∈ B.WriteAL.keys) ∧
    (∀ key : Byte52,
      Combine (BytesToAddress (key.val.take 20)) (BytesToHash (key.val.drop 20)) = key) :=
  ⟨fun key => RW_AccessLists.mem_Merge_loop B.ReadAL.keys A.ReadAL key,
   fun key => RW_AccessLists.mem_Merge_loop B.WriteAL.keys A.WriteAL key,
   Combine_split⟩

/-- Claim C5: merge commutes up to set equality: `A` after `A.Merge(B)` and a copy of `B`
after merging `A` into it are `Equal`, whether the copy receives `A` as it was before its
own merge or as it is after it. -/
theorem merge_comm_equal (A B : RW_AccessLists) :
    (A.Merge B).Equal (B.Merge A) = true ∧
    (A.Merge B).Equal (B.Merge (A.Merge B)) = true := by
  have hr : ∀ (X Y : RW_AccessLists) (key : Byte52),
      key ∈ (X.Merge Y).ReadAL.keys ↔ key ∈ X.ReadAL.keys ∨ key ∈ Y.ReadAL.keys :=
    fun X Y key => RW_AccessLists.mem_Merge_loop Y.ReadAL.keys X.ReadAL key
  have hw : ∀ (X Y : RW_AccessLists) (key : Byte52),
      key ∈ (X.Merge Y).WriteAL.keys ↔ key ∈ X.WriteAL.keys ∨ key ∈ Y.WriteAL.keys :=
    fun X Y key => RW_AccessLists.mem_Merge_loop Y.WriteAL.keys X.WriteAL key
  constructor
  · rw [RW_AccessLists.Equal_iff]
    constructor
    · intro key
      rw [hr, hr]
      exact Or.comm
    · intro key
      rw [hw, hw]
      exact Or.comm
  · rw [RW_AccessLists.Equal_iff]
    constructor
    · intro key
      rw [hr B (A.Merge B), hr A B]
      constructor
      · exact fun h => Or.inr h
      · rintro (h | h)
        · exact Or.inr h
        · exact h
    · intro key
      rw [hw B (A.Merge B), hw A B]
      constructor
      · exact fun h => Or.inr h
      · rintro (h | h)
        · exact Or.inr h
        · exact h

/-- Claim C6: `A.Equal(B)` returns true exactly when the read sets of `A` and `B` have the same
members and the write sets of `A` and `B` have the same members. -/
theorem equal_iff_same_members (A B : RW_AccessLists) :
    A.Equal B = true ↔
      (∀ key, key ∈ A.ReadAL.keys ↔ key ∈ B.ReadAL.keys) ∧
      (∀ key, key ∈ A.WriteAL.keys ↔ key ∈ B.WriteAL.keys) :=
  RW_AccessLists.Equal_iff A B

/-- Claim C7: `Combine(a, h)` is the 20 bytes of `a` followed by the 32 bytes of `h`: byte `i` of
the key is byte `i` of `a` for `i < 20`, byte `20 + i` is byte `i` of `h` for `i < 32`; and
two combined keys are equal exactly when the addresses and the hashes are equal. -/
theorem combine_concat_injective :
    (∀ (a : Address) (h : Hash), (Combine a h).val = a.val ++ h.val) ∧
    (∀ (a : Address) (h : Hash) (i : Fin 20), (Combine a h).val[i.val]? = a.val[i.val]?) ∧
    (∀ (a : Address) (h : Hash) (i : Fin 32), (Combine a h).val[20 + i.val]? = h.val[i.val]?) ∧
    (∀ (a1 a2 : Address) (h1 h2 : Hash),
      Combine a1 h1 = Combine a2 h2 ↔ a1 = a2 ∧ h1 = h2) := by
  refine ⟨Combine_val, ?_, ?_, ?_⟩
  · intro a h i
    rw [Combine_val, List.getElem?_append_left (by rw [a.property]; exact i.isLt)]
  · intro a h i
    rw [Combine_val, List.getElem?_append_right (by rw [a.property]; omega), a.property]
    congr 1
    omega
  · intro a1 a2 h1 h2
    constructor
    · exact Combine_inj
    · rintro ⟨rfl, rfl⟩
      rfl

/-- Claim C8: adding the same (address, discriminator) twice gives the same set as adding it
once, and adding a key the set already contains leaves the set unchanged. -/
theorem add_idempotent (t : ALTuple) (a : Address) (h : Hash) :
    (t.Add a h).Add a h = t.Add a h ∧
    (t.Contains (Combine a h) = true → t.Add a h = t) := by
  constructor
  · apply ALTuple.Add_of_mem
    rw [ALTuple.mem_Add]
    exact Or.inr rfl
  · intro hc
    exact ALTuple.Add_of_mem t a h ((ALTuple.Contains_iff _ _).1 hc)

/-- Witness of C8 on the write set of the spec's second unit, which contains slot `0x01`. -/
theorem add_idempotent_witness :
    scenarioB.WriteAL.Contains (Combine addrAA (slot 1)) = true ∧
    scenarioB.WriteAL.Add addrAA (slot 1) = scenarioB.WriteAL :=
  ⟨by decide, (add_idempotent scenarioB.WriteAL addrAA (slot 1)).2 (by decide)⟩

end accesslist

namespace cachestate
open common

/-- Claim C9: for a snapshot `s` with `0 <= s <= length()`, `journal.revert(state, s)` runs the
undo of the entries `e_{n-1}, ..., e_s` on the state in that order, each once and none
below index `s` (it panics exactly when one of these undos panics); when it returns, the
entry sequence is `e_0 .. e_{s-1}` and `length()` is `s`; and it returns whenever no undo
panics. -/
theorem journal_revert_order {σ : Type} (j : journal σ) (statedb : σ) (snapshot : Int)
    (h0 : 0 ≤ snapshot) (hn : snapshot ≤ j.length) :
    (j.revert statedb snapshot).map Prod.snd =
        List.foldlM (fun st (e : journalEntry σ) => e.revert st) statedb
          (j.entries.drop snapshot.toNat).reverse ∧
    (∀ (j2 : journal σ) (statedb2 : σ), j.revert statedb snapshot = some (j2, statedb2) →
        j2.entries = j.entries.take snapshot.toNat ∧ j2.length = snapshot) ∧
    ((∀ e, e ∈ j.entries → ∀ st, (e.revert st).isSome = true) →
        (j.revert statedb snapshot).isSome = true) := by
  obtain ⟨s, rfl⟩ := Int.eq_ofNat_of_zero_le h0
  have hs : s ≤ j.entries.length := Int.ofNat_le.1 hn
  have h1 := revert_state j statedb s hs
  refine ⟨h1, ?_, ?_⟩
  · intro j2 statedb2 h
    have he := revert_entries j statedb s hs j2 statedb2 h
    refine ⟨he, ?_⟩
    unfold journal.length
    rw [he, List.length_take, Nat.min_eq_left hs]
  · intro hall
    have h2 := foldlM_revert_isSome ((j.entries.drop s).reverse)
      (fun e he => hall e (List.mem_of_mem_drop (List.mem_reverse.1 he))) statedb
    rw [← h1] at h2
    simpa using h2

/-- Witness of C9: reverting the four-entry journal to snapshot `1` undoes the entries 3, 2,
1 in that order and keeps one entry. -/
theorem journal_revert_order_witness :
    (0 : Int) ≤ 1 ∧ (1 : Int) ≤ scenarioJournal.length ∧
    (scenarioJournal.revert [] 1).map Prod.snd = some [3, 2, 1] ∧
    ((scenarioJournal.revert [] 1).map Prod.snd =
        List.foldlM (fun st (e : journalEntry (List Nat)) => e.revert st) []
          (scenarioJournal.entries.drop (1 : Int).toNat).reverse ∧
      (∀ (j2 : journal (List Nat)) (statedb2 : List Nat),
        scenarioJournal.revert [] 1 = some (j2, statedb2) →
          j2.entries = scenarioJournal.entries.take (1 : Int).toNat ∧ j2.length = 1) ∧
      ((∀ e, e ∈ scenarioJournal.entries → ∀ st, (e.revert st).isSome = true) →
        (scenarioJournal.revert [] 1).isSome = true)) :=
  ⟨by decide, by decide, by decide,
    journal_revert_order scenarioJournal [] 1 (by decide) (by decide)⟩

end cachestate

namespace cachestate
open common

/-- Claim C11: starting from a new journal, after appending `N >= 1` records that all
dirtied the address `a`, `journal.revert(state, 0)` leaves `a` absent from `dirties`; the
call returns whenever no undo panics. -/
theorem dirty_accounting {σ : Type} (a : Address) (es : List (journalEntry σ))
    (hN : 1 ≤ es.length) (hall : ∀ e, e ∈ es → e.dirtied = some a) (statedb : σ) :
    (∀ (j2 : journal σ) (statedb2 : σ),
      (es.foldl journal.append newJournal).revert statedb 0 = some (j2, statedb2) →
        j2.dirties a = none) ∧
    ((∀ e, e ∈ es → ∀ st, (e.revert st).isSome = true) →
      ((es.foldl journal.append newJournal).revert statedb 0).isSome = true) := by
  have hne : es ≠ [] := by
    intro h0
    rw [h0] at hN
    exact absurd hN (Nat.not_succ_le_zero 0)
  refine ⟨fun j2 statedb2 h => revert_zero_same_address a es hne hall statedb j2 statedb2 h, ?_⟩
  intro htotal
  have hent : (es.foldl journal.append newJournal).entries = es := by
    rw [foldl_append_entries]
    rfl
  have h1 := revert_state (es.foldl journal.append newJournal) statedb 0 (Nat.zero_le _)
  have h2 := foldlM_revert_isSome ((es.drop 0).reverse)
    (fun e he => htotal e (List.mem_of_mem_drop (List.mem_reverse.1 he))) statedb
  rw [hent] at h1
  rw [← h1] at h2
  simpa using h2

/-- Witness of C11: three records that dirtied `0xAA..AA`; the revert returns and leaves
the address absent. -/
theorem dirty_accounting_witness :
    1 ≤ sameAddressEntries.length ∧
    (∀ e, e ∈ sameAddressEntries → e.dirtied = some accesslist.addrAA) ∧
    ((sameAddressEntries.foldl journal.append newJournal).revert [] 0).map
      (fun r => (r.1.dirties accesslist.addrAA, r.2)) = some (none, [2, 1, 0]) ∧
    ((∀ (j2 : journal (List Nat)) (statedb2 : List Nat),
      (sameAddressEntries.foldl journal.append newJournal).revert [] 0 = some (j2, statedb2) →
        j2.dirties accesslist.addrAA = none) ∧
    ((∀ e, e ∈ sameAddressEntries → ∀ st, (e.revert st).isSome = true) →
      ((sameAddressEntries.foldl journal.append newJournal).revert [] 0).isSome = true)) :=
  have hall : ∀ e, e ∈ sameAddressEntries → e.dirtied = some accesslist.addrAA := by
    intro e he
    simp only [sameAddressEntries, List.mem_cons, List.mem_singleton, List.not_mem_nil,
      or_false] at he
    rcases he with rfl | rfl | rfl <;> rfl
  ⟨by decide, hall, by decide,
    dirty_accounting accesslist.addrAA sameAddressEntries (by decide) hall []⟩

/-- Claim C12: `journal.revert(st, j.length())` is a no-op for every journal and state: it
returns, and the state, the entry sequence and the dirties map are unchanged. -/
theorem revert_to_length_noop {σ : Type} (j : journal σ) (statedb : σ) :
    j.revert statedb j.length = some (j, statedb) :=
  revert_length j statedb

end cachestate

namespace cachestate
open common

/-- Claim C13, as the code has it: when `a` has no account object, `Snapshot()` returns 0
and `RevertToSnapshot(id)` changes nothing, so after create account `a`, add balance 10,
`id = Snapshot()`, set nonce 3, set slot `k` to `v` and `RevertToSnapshot(id)` the nonce of
`a` is 3, slot `k` holds `v` and the balance is 10. -/
theorem snapshot_revert_is_stub (s : CacheState) (a : Address) (k v : Hash)
    (h : s.Accounts a = none) :
    (∀ t : CacheState, t.Snapshot = (0, t)) ∧
    (∀ (t : CacheState) (id : Int), t.RevertToSnapshot id = t) ∧
    ((snapshotScenario s a k v).GetNonce a).1 = 3 ∧
    ((snapshotScenario s a k v).GetState a k).1 = v ∧
    ((snapshotScenario s a k v).GetBalance a).1 = 10 := by
  have hacc := snapshotScenario_account s a k v h
  refine ⟨fun _ => rfl, fun _ _ => rfl, ?_, ?_, ?_⟩
  · unfold CacheState.GetNonce CacheState.getAccountObject
    rw [hacc]
    rfl
  · unfold CacheState.GetState CacheState.getAccountObject
    rw [hacc]
    simp [accountObject.GetStorageState, accountObject.SetStorageState]
  · unfold CacheState.GetBalance
    rw [getOrset_present _ a _ hacc]
    simp [accountObject.GetBalance, accountObject.SetStorageState, accountObject.SetNonce,
      accountObject.AddBalance, newAccountObject]

/-- Witness of the amended C13 on a state from `NewStateDB`. -/
theorem snapshot_revert_is_stub_witness :
    NewStateDB.Accounts accesslist.addrAA = none ∧
    ((∀ t : CacheState, t.Snapshot = (0, t)) ∧
      (∀ (t : CacheState) (id : Int), t.RevertToSnapshot id = t) ∧
      ((snapshotScenario NewStateDB accesslist.addrAA (accesslist.slot 1)
        (accesslist.slot 2)).GetNonce accesslist.addrAA).1 = 3 ∧
      ((snapshotScenario NewStateDB accesslist.addrAA (accesslist.slot 1)
        (accesslist.slot 2)).GetState accesslist.addrAA (accesslist.slot 1)).1 =
          accesslist.slot 2 ∧
      ((snapshotScenario NewStateDB accesslist.addrAA (accesslist.slot 1)
        (accesslist.slot 2)).GetBalance accesslist.addrAA).1 = 10) :=
  ⟨rfl, snapshot_revert_is_stub NewStateDB accesslist.addrAA (accesslist.slot 1)
    (accesslist.slot 2) rfl⟩

/-- Counterexample to C13 as stated: on a state from `NewStateDB`, with `a = 0xAA..AA`,
`k` the slot 1 and `v` the hash 2, the scenario does not end with nonce 0, a zero slot and
balance 10: the nonce is 3 and the slot holds `v`. -/
theorem snapshot_revert_counterexample :
    ¬ (((snapshotScenario NewStateDB accesslist.addrAA (accesslist.slot 1)
          (accesslist.slot 2)).GetNonce accesslist.addrAA).1 = 0 ∧
       ((snapshotScenario NewStateDB accesslist.addrAA (accesslist.slot 1)
          (accesslist.slot 2)).GetState accesslist.addrAA (accesslist.slot 1)).1 =
            zeroBytes 32 ∧
       ((snapshotScenario NewStateDB accesslist.addrAA (accesslist.slot 1)
          (accesslist.slot 2)).GetBalance accesslist.addrAA).1 = 10) := by
  decide

end cachestate

namespace cachestate
open common

/-- Claim C14, evaluated on the code: on every cache state with an initialised log map, two
`AddLog` calls made one after the other both return, and both stamp the `Index` that
`logSize` had before the first call; the later `Index` is not greater. -/
theorem addLog_index_not_increasing (acc : Address → Option accountObject) (logs : LogMap)
    (thash : Hash) (txIndex : Int) (logSize : Nat) (e1 e2 : Log) :
    ∃ (l1 l2 : Log) (s1 s2 : CacheState),
      (CacheState.mk acc (some logs) thash txIndex logSize).AddLog e1 = some (l1, s1) ∧
      s1.AddLog e2 = some (l2, s2) ∧
      l1.Index = logSize ∧ l2.Index = logSize ∧ ¬ (l1.Index < l2.Index) ∧
      s2.logSize = logSize :=
  ⟨_, _, _, _, rfl, rfl, rfl, rfl, Nat.lt_irrefl _, rfl⟩

/-- Claim C15, evaluated on the code: on a state from `NewStateDB`, `SetTxContext(h, i)`
followed by `AddLog(e)` panics (the map `Logs` is `nil`); on a state whose log map is
initialised and empty, the same calls return and leave `[e]` stored for `h`, with
`e.TxHash = h` and `e.TxIndex = uint(i)`. -/
theorem addLog_after_NewStateDB_panics (h : Hash) (i : Int) (e : Log) :
    (NewStateDB.SetTxContext h i).AddLog e = none ∧
    (∀ (acc : Address → Option accountObject) (thash : Hash) (txIndex : Int) (logSize : Nat),
      ∃ (l : Log) (s : CacheState),
        ((CacheState.mk acc (some (fun _ => none)) thash txIndex logSize).SetTxContext h i).AddLog e
          = some (l, s) ∧
        s.Logs.bind (fun m => m h) = some [l] ∧
        l.TxHash = h ∧ l.TxIndex = (i % (2 ^ 64 : Int)).toNat) := by
  refine ⟨rfl, ?_⟩
  intro acc thash txIndex logSize
  refine ⟨_, _, rfl, ?_, rfl, rfl⟩
  simp [CacheState.SetTxContext]

/-- Claim C16: when `a` has no account object, `SelfDestruct(a)` leaves the state as it
is, and `HasSelfDestructed(a)` returns false before and after the call, without changing
the state either. -/
theorem selfDestruct_absent_noop (s : CacheState) (a : Address) (h : s.Accounts a = none) :
    s.SelfDestruct a = s ∧
    s.HasSelfDestructed a = (false, s) ∧
    (s.SelfDestruct a).HasSelfDestructed a = (false, s) := by
  have h1 : s.SelfDestruct a = s := by
    unfold CacheState.SelfDestruct CacheState.getAccountObject
    rw [h]
  have h2 : s.HasSelfDestructed a = (false, s) := by
    unfold CacheState.HasSelfDestructed CacheState.getAccountObject
    rw [h]
  refine ⟨h1, h2, ?_⟩
  rw [h1, h2]

/-- Witness of C16 on a state that holds an account for the zero address only. -/
theorem selfDestruct_absent_noop_witness :
    scenarioState.Accounts accesslist.addrAA = none ∧
    (scenarioState.SelfDestruct accesslist.addrAA = scenarioState ∧
      scenarioState.HasSelfDestructed accesslist.addrAA = (false, scenarioState) ∧
      (scenarioState.SelfDestruct accesslist.addrAA).HasSelfDestructed accesslist.addrAA =
        (false, scenarioState)) :=
  ⟨rfl, selfDestruct_absent_noop scenarioState accesslist.addrAA rfl⟩

/-- Claim C17: when `a` has no account object, `GetNonce(a)` returns 0 and leaves the
state as it is, so `Exist(a)` is still false; after `SetNonce(a, n)`, `Exist(a)` is true
and `GetNonce(a)` returns `n`. -/
theorem getNonce_absent_setNonce (s : CacheState) (a : Address) (n : Nat)
    (h : s.Accounts a = none) :
    s.GetNonce a = (0, s) ∧
    ((s.GetNonce a).2.Exist a).1 = false ∧
    (s.GetNonce a).2.Accounts = s.Accounts ∧
    ((s.SetNonce a n).Exist a).1 = true ∧
    ((s.SetNonce a n).GetNonce a).1 = n := by
  have h1 : s.GetNonce a = (0, s) := by
    unfold CacheState.GetNonce CacheState.getAccountObject
    rw [h]
  have h2 : (s.SetNonce a n).Accounts a = some ((newAccountObject a).SetNonce n) := by
    unfold CacheState.SetNonce
    rw [getOrset_absent s a h]
    exact storeAt_accounts_self _ _ _ _ (setAccountObject_new s a)
  refine ⟨h1, ?_, ?_, ?_, ?_⟩
  · rw [h1]
    unfold CacheState.Exist CacheState.getAccountObject
    rw [h]
    rfl
  · rw [h1]
  · unfold CacheState.Exist CacheState.getAccountObject
    rw [h2]
    rfl
  · unfold CacheState.GetNonce CacheState.getAccountObject
    rw [h2]
    rfl

/-- Witness of C17 on a state that holds an account for the zero address only. -/
theorem getNonce_absent_setNonce_witness :
    scenarioState.Accounts accesslist.addrAA = none ∧
    (scenarioState.GetNonce accesslist.addrAA = (0, scenarioState) ∧
      ((scenarioState.GetNonce accesslist.addrAA).2.Exist accesslist.addrAA).1 = false ∧
      (scenarioState.GetNonce accesslist.addrAA).2.Accounts = scenarioState.Accounts ∧
      ((scenarioState.SetNonce accesslist.addrAA 7).Exist accesslist.addrAA).1 = true ∧
      ((scenarioState.SetNonce accesslist.addrAA 7).GetNonce accesslist.addrAA).1 = 7) :=
  ⟨rfl, getNonce_absent_setNonce scenarioState accesslist.addrAA 7 rfl⟩

/-- Claim C18, evaluated on the code: on every cache state with an initialised log map,
`AddLog(e)` followed by `addLogChange{txhash: thash}.revert` returns; the accounts, the
transaction context and the log lists of the other hashes are as before, the list of
`thash` is as before (absent when it was empty), but `logSize` is one less than before,
wrapped at zero; from `logSize = 0` it ends at `2^64 - 1`. -/
theorem addLog_revert_logSize (acc : Address → Option accountObject) (logs : LogMap)
    (thash : Hash) (txIndex : Int) (logSize : Nat) (e : Log) :
    (∃ (l : Log) (s1 s2 : CacheState) (logs2 : LogMap),
      (CacheState.mk acc (some logs) thash txIndex logSize).AddLog e = some (l, s1) ∧
      (addLogChange thash).revert s1 = some s2 ∧
      s2.Accounts = acc ∧ s2.thash = thash ∧ s2.txIndex = txIndex ∧
      s2.Logs = some logs2 ∧
      (∀ h, h ≠ thash → logs2 h = logs h) ∧
      logs2 thash = (if ((logs thash).getD []).length = 0 then none else logs thash) ∧
      s2.logSize = (logSize + 2 ^ 64 - 1) % 2 ^ 64) ∧
    ((scenarioState.AddLog scenarioLog).bind
        (fun r => (addLogChange scenarioState.thash).revert r.2)).map
      (fun s2 => (scenarioState.logSize, s2.logSize)) = some (0, 18446744073709551615) := by
  constructor
  · by_cases hL : ((logs thash).getD []).length = 0
    · refine ⟨_, _, ⟨acc, some (fun h => if h = thash then none else logs h), thash, txIndex,
        (logSize + 2 ^ 64 - 1) % 2 ^ 64⟩, (fun h => if h = thash then none else logs h),
        rfl, ?_, rfl, rfl, rfl, rfl, ?_, ?_, rfl⟩
      · simp only [addLogChange, addLogChange.revert, if_true, Option.getD_some,
          List.length_append, List.length_singleton, hL, Nat.zero_add, Option.map_some']
        congr 3
        funext h
        by_cases hh : h = thash
        · rw [if_pos hh, if_pos hh]
        · rw [if_neg hh, if_neg hh, if_neg hh]
      · intro h hne
        show (if h = thash then none else logs h) = logs h
        rw [if_neg hne]
      · show (if thash = thash then none else logs thash) = _
        rw [if_pos rfl, if_pos hL]
    · have hlogs : logs thash = some ((logs thash).getD []) := by
        cases hlt : logs thash with
        | none => rw [hlt] at hL; exact absurd rfl hL
        | some L => rfl
      refine ⟨_, _, ⟨acc, some (fun h => if h = thash then some ((logs thash).getD []) else
        logs h), thash, txIndex, (logSize + 2 ^ 64 - 1) % 2 ^ 64⟩,
        (fun h => if h = thash then some ((logs thash).getD []) else logs h),
        rfl, ?_, rfl, rfl, rfl, rfl, ?_, ?_, rfl⟩
      · have h1 : ¬ ((logs thash).getD []).length + 1 = 1 := by omega
        have h2 : ¬ ((logs thash).getD []).length + 1 = 0 := by omega
        simp only [addLogChange, addLogChange.revert, if_true, Option.getD_some,
          List.length_append, List.length_singleton, if_neg h1, if_neg h2,
          List.dropLast_concat]
        congr 3
        funext h
        by_cases hh : h = thash
        · rw [if_pos hh, if_pos hh]
        · rw [if_neg hh, if_neg hh, if_neg hh]
      · intro h hne
        show (if h = thash then some ((logs thash).getD []) else logs h) = logs h
        rw [if_neg hne]
      · show (if thash = thash then some ((logs thash).getD []) else logs thash) = _
        rw [if_pos rfl, if_neg hL]
        exact hlogs.symm
  · decide

end cachestate

namespace accesslist
open common

/-- Claim C19: conflict detection distributes over merge: for `A` after `A.Merge(B)`,
`HasConflict(C)` equals `A.HasConflict(C) || B.HasConflict(C)` with `A` taken before the
merge. -/
theorem hasConflict_merge (A B C : RW_AccessLists) :
    (A.Merge B).HasConflict C = (A.HasConflict C || B.HasConflict C) := by
  have hr : ∀ key, key ∈ (A.Merge B).ReadAL.keys ↔ key ∈ A.ReadAL.keys ∨ key ∈ B.ReadAL.keys :=
    fun key => RW_AccessLists.mem_Merge_loop B.ReadAL.keys A.ReadAL key
  have hw : ∀ key, key ∈ (A.Merge B).WriteAL.keys ↔ key ∈ A.WriteAL.keys ∨ key ∈ B.WriteAL.keys :=
    fun key => RW_AccessLists.mem_Merge_loop B.WriteAL.keys A.WriteAL key
  rw [Bool.eq_iff_iff, Bool.or_eq_true, RW_AccessLists.HasConflict_iff,
    RW_AccessLists.HasConflict_iff, RW_AccessLists.HasConflict_iff]
  constructor
  · rintro (⟨k, h1, h2⟩ | ⟨k, h1, h2⟩ | ⟨k, h1, h2⟩)
    · rcases (hr k).1 h1 with h | h
      · exact Or.inl (Or.inl ⟨k, h, h2⟩)
      · exact Or.inr (Or.inl ⟨k, h, h2⟩)
    · rcases (hw k).1 h1 with h | h
      · exact Or.inl (Or.inr (Or.inl ⟨k, h, h2⟩))
      · exact Or.inr (Or.inr (Or.inl ⟨k, h, h2⟩))
    · rcases (hw k).1 h1 with h | h
      · exact Or.inl (Or.inr (Or.inr ⟨k, h, h2⟩))
      · exact Or.inr (Or.inr (Or.inr ⟨k, h, h2⟩))
  · rintro ((⟨k, h1, h2⟩ | ⟨k, h1, h2⟩ | ⟨k, h1, h2⟩) | (⟨k, h1, h2⟩ | ⟨k, h1, h2⟩ | ⟨k, h1, h2⟩))
    · exact Or.inl ⟨k, (hr k).2 (Or.inl h1), h2⟩
    · exact Or.inr (Or.inl ⟨k, (hw k).2 (Or.inl h1), h2⟩)
    · exact Or.inr (Or.inr ⟨k, (hw k).2 (Or.inl h1), h2⟩)
    · exact Or.inl ⟨k, (hr k).2 (Or.inr h1), h2⟩
    · exact Or.inr (Or.inl ⟨k, (hw k).2 (Or.inr h1), h2⟩)
    · exact Or.inr (Or.inr ⟨k, (hw k).2 (Or.inr h1), h2⟩)

end accesslist

namespace cachestate
open common

/-- Claim C20: for a journal whose stored dirty counts are all positive, `append(e)`
followed by `revert(state, n)` with `n` the length before the append returns exactly when
the undo of `e` returns, and then leaves the journal as it was before the append: the same
entries and the same dirties map. -/
theorem append_revert_roundtrip {σ : Type} (j : journal σ) (e : journalEntry σ) (statedb : σ)
    (hpos : ∀ a c, j.dirties a = some c → 0 < c.val) :
    (j.append e).revert statedb j.length = (e.revert statedb).map (fun st => (j, st)) ∧
    (∀ (j2 : journal σ) (statedb2 : σ),
      (j.append e).revert statedb j.length = some (j2, statedb2) →
        j2.entries = j.entries ∧ j2.dirties = j.dirties) := by
  have h := append_revert j e statedb hpos
  refine ⟨h, ?_⟩
  intro j2 statedb2 h2
  rw [h] at h2
  cases hr : e.revert statedb with
  | none => rw [hr] at h2; cases h2
  | some st =>
    rw [hr] at h2
    simp only [Option.map_some', Option.some.injEq, Prod.mk.injEq] at h2
    rw [← h2.1]
    exact ⟨rfl, rfl⟩

/-- Witness of C20: the four-entry journal, and a record for an address that was not dirty
before; after the round trip the address is absent again. -/
theorem append_revert_roundtrip_witness :
    (∀ a c, scenarioJournal.dirties a = some c → 0 < c.val) ∧
    ((scenarioJournal.append (traceEntry 9 (some (BytesToAddress [1])))).revert []
        scenarioJournal.length).map (fun r => (r.1.dirties (BytesToAddress [1]), r.2)) =
      some (none, [9]) ∧
    (((scenarioJournal.append (traceEntry 9 (some (BytesToAddress [1])))).revert []
        scenarioJournal.length =
      ((traceEntry 9 (some (BytesToAddress [1]))).revert []).map
        (fun st => (scenarioJournal, st))) ∧
    (∀ (j2 : journal (List Nat)) (statedb2 : List Nat),
      (scenarioJournal.append (traceEntry 9 (some (BytesToAddress [1])))).revert []
        scenarioJournal.length = some (j2, statedb2) →
        j2.entries = scenarioJournal.entries ∧ j2.dirties = scenarioJournal.dirties)) :=
  have hpos : ∀ a c, scenarioJournal.dirties a = some c → 0 < c.val :=
    (reachable_inv scenarioJournal scenarioJournal_normal).1
  ⟨hpos, by decide,
    append_revert_roundtrip scenarioJournal (traceEntry 9 (some (BytesToAddress [1]))) [] hpos⟩

end cachestate
